import Mathlib

/-!
Verification development for the fotografiska2 photo organiser (src/main.go).

The Go program is shallowly embedded below.  Go strings are modelled as
`List Char`, file contents as `List Nat` (one entry per byte), and machine
integers as `Nat`/`Int` with explicit `% 2 ^ 64` where overflow matters.
Functions that can `panic` in Go return `Option`; `none` is a panic.
External collaborators (the EXIF library, `os.Stat` metadata, the operating
system's file tree) are modelled as an explicit environment `Env`; everything
with decision logic in src/main.go is translated definitionally.
-/

namespace Fotografiska

/-- A Go string, modelled as its list of characters. -/
abbrev GoStr := List Char

/-- File contents: one natural number (0..255) per byte. -/
abbrev Bytes := List Nat

/-! ## Small character and string helpers (Go `strings` package subset) -/

/-- Is `c` an ASCII decimal digit? -/
def isDigitC (c : Char) : Bool := 48 ≤ c.toNat && c.toNat ≤ 57

/-- Is `c` a lowercase hexadecimal digit (`[0-9a-f]`)? -/
def isHexLowerC (c : Char) : Bool := isDigitC c || (97 ≤ c.toNat && c.toNat ≤ 102)

/-- `strings.ToLower` restricted to ASCII, applied characterwise. -/
def toLowerChar (c : Char) : Char :=
  if 65 ≤ c.toNat ∧ c.toNat ≤ 90 then Char.ofNat (c.toNat + 32) else c

/-- `strings.ToLower` on a whole string. -/
def strToLower (s : GoStr) : GoStr := s.map toLowerChar

/-- `strings.HasSuffix s suf`. -/
def hasSuffixL (s suf : GoStr) : Bool := decide (suf <:+ s)

/-- `strings.Split s "-"` for a one-character separator. -/
def splitOnChar (sep : Char) : GoStr → List GoStr
  | [] => [[]]
  | c :: rest =>
    match splitOnChar sep rest with
    | [] => [[]]
    | g :: gs => if c = sep then [] :: g :: gs else (c :: g) :: gs

/-! ## `path/filepath` subset -/

/-- The part of `p` after its last slash (helper for `filepath.Base`). -/
def lastSeg (p : GoStr) : GoStr := (p.reverse.takeWhile (fun c => ¬ c = '/')).reverse

/-- `filepath.Base`: last element of the path, after stripping trailing slashes. -/
def basenameGo (p : GoStr) : GoStr :=
  if p = [] then ['.']
  else
    let q := (p.reverse.dropWhile (fun c => c = '/')).reverse
    if q = [] then ['/'] else lastSeg q

/-- `filepath.Dir`: everything before the last slash (directory of a path). -/
def dirnameGo (p : GoStr) : GoStr :=
  let q := (p.reverse.dropWhile (fun c => ¬ c = '/')).reverse
  let r := (q.reverse.dropWhile (fun c => c = '/')).reverse
  if r = [] then (if q = [] then ['.'] else ['/']) else r

/-! ## Decimal formatting (Go `fmt` verbs used by main.go) -/

/-- One decimal digit character. -/
def digitChar10 (d : Nat) : Char := Char.ofNat (48 + d % 10)

/-- Fuel-driven digit expansion (structural recursion so that the kernel
can evaluate it; `natDec` supplies enough fuel). -/
def natDecAux : Nat → Nat → GoStr
  | 0, _ => []
  | fuel + 1, n =>
    if n < 10 then [digitChar10 n] else natDecAux fuel (n / 10) ++ [digitChar10 n]

/-- Decimal digits of a natural number, as printed by Go's `%d`. -/
def natDec (n : Nat) : GoStr := natDecAux (n + 1) n

/-- Go's `%.2d`: decimal, zero-padded to at least two digits. -/
def pad2 (n : Nat) : GoStr := if n < 10 then '0' :: natDec n else natDec n

/-- Zero padding to at least four digits (Go `Format` layout `2006`). -/
def pad4 (n : Nat) : GoStr :=
  if n < 10 then '0' :: '0' :: '0' :: natDec n
  else if n < 100 then '0' :: '0' :: natDec n
  else if n < 1000 then '0' :: natDec n
  else natDec n

/-! ## Go `time.Time` model -/

/-- A Go `time.Time`: a wall-clock reading together with its zone offset
(in minutes east of UTC) and nanoseconds. -/
structure GoTime where
  year : Nat
  month : Nat
  day : Nat
  hour : Nat
  minute : Nat
  second : Nat
  nsec : Nat
  offMin : Int
deriving DecidableEq

/-- Days since 1970-01-01 of a civil date (standard civil-from-days inverse). -/
def daysFromCivil (y m d : Int) : Int :=
  let y2 : Int := if m ≤ 2 then y - 1 else y
  let era : Int := (if 0 ≤ y2 then y2 else y2 - 399) / 400
  let yoe : Int := y2 - era * 400
  let mp : Int := if 2 < m then m - 3 else m + 9
  let doy : Int := (153 * mp + 2) / 5 + d - 1
  let doe : Int := yoe * 365 + yoe / 4 - yoe / 100 + doy
  era * 146097 + doe - 719468

/-- Absolute time of a `GoTime` in seconds since the Unix epoch. -/
def toAbsSec (t : GoTime) : Int :=
  daysFromCivil t.year t.month t.day * 86400
    + t.hour * 3600 + t.minute * 60 + t.second - t.offMin * 60

/-- `time.Time.Before`: instant comparison (seconds, then nanoseconds). -/
def goTimeBefore (a b : GoTime) : Bool :=
  if toAbsSec a < toAbsSec b then true
  else if toAbsSec a = toAbsSec b then decide (a.nsec < b.nsec)
  else false

/-- Go `Format("2006.01.02_15.04.05-0700")`: the layout always emits the
sign and a four-or-more digit zone offset, `+0000` for UTC. -/
def fmtTimestampCore (t : GoTime) : GoStr :=
  pad4 t.year ++ '.' :: pad2 t.month ++ '.' :: pad2 t.day
    ++ '_' :: pad2 t.hour ++ '.' :: pad2 t.minute ++ '.' :: pad2 t.second

/-- The zone-offset digits `hhmm` of the layout `-0700` (without the sign). -/
def offsetDigits (t : GoTime) : GoStr :=
  pad2 (t.offMin.natAbs / 60) ++ pad2 (t.offMin.natAbs % 60)

/-- Full rendering of `t.Format("2006.01.02_15.04.05-0700")`. -/
def fmtTimestamp (t : GoTime) : GoStr :=
  fmtTimestampCore t ++ (if t.offMin < 0 then '-' else '+') :: offsetDigits t

/-! ## Go `time.Parse` for the four layouts used by main.go -/

/-- Take exactly `n` decimal digits from the front of `s` and read them. -/
def takeDigits (n : Nat) (s : GoStr) : Option (Nat × GoStr) :=
  let pre := s.take n
  if pre.length = n ∧ pre.all isDigitC then
    some (pre.foldl (fun a c => a * 10 + (c.toNat - 48)) 0, s.drop n)
  else none

/-- Expect the literal character `c` at the front of `s`. -/
def expectChar (c : Char) (s : GoStr) : Option GoStr :=
  match s with
  | [] => none
  | x :: r => if x = c then some r else none

/-- Leap year, as in Go's `time` package. -/
def isLeap (y : Nat) : Bool := y % 4 = 0 && (y % 100 ≠ 0 || y % 400 = 0)

/-- Number of days of month `m` of year `y`. -/
def daysInMonth (y m : Nat) : Nat :=
  if m = 2 then (if isLeap y then 29 else 28)
  else if m = 4 ∨ m = 6 ∨ m = 9 ∨ m = 11 then 30
  else 31

/-- Range validation performed by Go's `time.Parse`; a naive time is given
zone offset `0` (UTC), exactly as `time.Parse` does without a zone layout. -/
def mkValidTime (y mo d h mi s : Nat) (offMin : Int) : Option GoTime :=
  if 1 ≤ mo ∧ mo ≤ 12 ∧ 1 ≤ d ∧ d ≤ daysInMonth y mo ∧ h ≤ 23 ∧ mi ≤ 59 ∧ s ≤ 59
  then some ⟨y, mo, d, h, mi, s, 0, offMin⟩ else none

/-- Parse `yyyyCmmCdd hhCmiCss` where `C` is `dsep` and the blank is `msep`
(the two layout families of main.go use the same separator inside the date
and inside the time). -/
def parseDateTimeCore (dsep msep : Char) (s : GoStr) :
    Option ((Nat × Nat × Nat × Nat × Nat × Nat) × GoStr) :=
  match takeDigits 4 s with
  | none => none
  | some (y, s1) =>
  match expectChar dsep s1 with
  | none => none
  | some s2 =>
  match takeDigits 2 s2 with
  | none => none
  | some (mo, s3) =>
  match expectChar dsep s3 with
  | none => none
  | some s4 =>
  match takeDigits 2 s4 with
  | none => none
  | some (d, s5) =>
  match expectChar msep s5 with
  | none => none
  | some s6 =>
  match takeDigits 2 s6 with
  | none => none
  | some (h, s7) =>
  match expectChar dsep s7 with
  | none => none
  | some s8 =>
  match takeDigits 2 s8 with
  | none => none
  | some (mi, s9) =>
  match expectChar dsep s9 with
  | none => none
  | some s10 =>
  match takeDigits 2 s10 with
  | none => none
  | some (sec, s11) => some ((y, mo, d, h, mi, sec), s11)

/-- Parse a `[+-]` sign. -/
def parseSign (s : GoStr) : Option (Bool × GoStr) :=
  match s with
  | [] => none
  | x :: r => if x = '+' then some (true, r) else if x = '-' then some (false, r) else none

/-- Parse a zone offset `[+-]dd:dd` (layout `-07:00`), in minutes. -/
def parseOffsetColon (s : GoStr) : Option (Int × GoStr) :=
  match parseSign s with
  | none => none
  | some (pos, s1) =>
  match takeDigits 2 s1 with
  | none => none
  | some (h, s2) =>
  match expectChar ':' s2 with
  | none => none
  | some s3 =>
  match takeDigits 2 s3 with
  | none => none
  | some (m, s4) =>
    some ((if pos then (h * 60 + m : Int) else -(h * 60 + m : Int)), s4)

/-- Parse a zone offset `[+-]dddd` (layout `-0700`), in minutes. -/
def parseOffsetPlain (s : GoStr) : Option (Int × GoStr) :=
  match parseSign s with
  | none => none
  | some (pos, s1) =>
  match takeDigits 2 s1 with
  | none => none
  | some (h, s2) =>
  match takeDigits 2 s2 with
  | none => none
  | some (m, s3) =>
    some ((if pos then (h * 60 + m : Int) else -(h * 60 + m : Int)), s3)

/-- `time.Parse("2006:01:02 15:04:05", s)` (naive EXIF timestamp, zone UTC). -/
def goParseExifNaive (s : GoStr) : Option GoTime :=
  match parseDateTimeCore ':' ' ' s with
  | none => none
  | some ((y, mo, d, h, mi, sec), rest) =>
    if rest = [] then mkValidTime y mo d h mi sec 0 else none

/-- `time.Parse("2006:01:02 15:04:05-07:00", s)` (EXIF timestamp plus offset). -/
def goParseExifOffset (s : GoStr) : Option GoTime :=
  match parseDateTimeCore ':' ' ' s with
  | none => none
  | some ((y, mo, d, h, mi, sec), rest) =>
  match parseOffsetColon rest with
  | none => none
  | some (off, rest2) =>
    if rest2 = [] then mkValidTime y mo d h mi sec off else none

/-- `time.Parse("2006.01.02_15.04.05", s)` (legacy-filename naive timestamp). -/
def goParseFnNaive (s : GoStr) : Option GoTime :=
  match parseDateTimeCore '.' '_' s with
  | none => none
  | some ((y, mo, d, h, mi, sec), rest) =>
    if rest = [] then mkValidTime y mo d h mi sec 0 else none

/-- `time.Parse("2006.01.02_15.04.05-0700", s)` (legacy filename plus offset). -/
def goParseFnOffset (s : GoStr) : Option GoTime :=
  match parseDateTimeCore '.' '_' s with
  | none => none
  | some ((y, mo, d, h, mi, sec), rest) =>
  match parseOffsetPlain rest with
  | none => none
  | some (off, rest2) =>
    if rest2 = [] then mkValidTime y mo d h mi sec off else none

/-! ## Extension classification (src/main.go lines 94-132) -/

/-- `EXIF_EXTENSIONS` from main.go. -/
def EXIF_EXTENSIONS : List GoStr :=
  [".jpg".data, ".jpeg".data, ".jpe".data, ".jif".data, ".jfif".data,
   ".png".data,
   ".tif".data, ".tiff".data,
   ".heic".data, ".heics".data, ".heif".data, ".heifs".data]

/-- `NON_MEDIA_EXTENSIONS` from main.go. -/
def NON_MEDIA_EXTENSIONS : List GoStr := [".xmp".data]

/-- `couldHaveExif`: the lowercased name ends in an EXIF-capable extension. -/
def couldHaveExif (filename : GoStr) : Bool :=
  EXIF_EXTENSIONS.any (fun ext => hasSuffixL (strToLower filename) ext)

/-- `isMedia`: false exactly when the lowercased name ends in a non-media
(sidecar) extension. -/
def isMedia (filename : GoStr) : Bool :=
  !(NON_MEDIA_EXTENSIONS.any (fun ext => hasSuffixL (strToLower filename) ext))

/-! ## Filename Parser (src/main.go lines 65-75, 86-91, 187-231)

The three Go regexes are unanchored searches with leftmost-first semantics.
Each is embedded as a committed parser matching the pattern at one position
plus a left-to-right scanner.  The committed parsers agree with the regexes:
every quantified piece (`[0-9a-f]+` before a literal `_` or `-`, and the
final greedy `.*`) admits exactly one backtracking-free match because the
following literal is outside the repeated character class. -/

/-- The `filenameInfo` struct of main.go; empty strings are Go's zero values. -/
structure filenameInfo where
  year : GoStr := []
  month : GoStr := []
  day : GoStr := []
  hour : GoStr := []
  minutes : GoStr := []
  seconds : GoStr := []
  tzoffset : GoStr := []
  hash : GoStr := []
  origFilename : GoStr := []
deriving DecidableEq

/-- Take two-digit group as captured text. -/
def takeDigitStr (n : Nat) (s : GoStr) : Option (GoStr × GoStr) :=
  let pre := s.take n
  if pre.length = n ∧ pre.all isDigitC then some (pre, s.drop n) else none

/-- Greedy run of `[0-9a-f]+` (must be nonempty). -/
def takeHexRun (s : GoStr) : Option (GoStr × GoStr) :=
  let run := s.takeWhile isHexLowerC
  if run = [] then none else some (run, s.dropWhile isHexLowerC)

/-- Capture of a trailing `(.*)` (greedy, `.` does not match a newline). -/
def dotStarCapture (s : GoStr) : GoStr := s.takeWhile (fun c => ¬ c = '\n')

/-- Match `rOldFullFilename` at the start of `s`:
`(dddd)\\.(dd)\\.(dd)_(dd)\\.(dd)\\.(dd)_([0-9a-f]+)_(.*)`. -/
def matchOldFullAt (s : GoStr) : Option filenameInfo :=
  match takeDigitStr 4 s with
  | none => none
  | some (y, s1) =>
  match expectChar '.' s1 with
  | none => none
  | some s2 =>
  match takeDigitStr 2 s2 with
  | none => none
  | some (mo, s3) =>
  match expectChar '.' s3 with
  | none => none
  | some s4 =>
  match takeDigitStr 2 s4 with
  | none => none
  | some (d, s5) =>
  match expectChar '_' s5 with
  | none => none
  | some s6 =>
  match takeDigitStr 2 s6 with
  | none => none
  | some (h, s7) =>
  match expectChar '.' s7 with
  | none => none
  | some s8 =>
  match takeDigitStr 2 s8 with
  | none => none
  | some (mi, s9) =>
  match expectChar '.' s9 with
  | none => none
  | some s10 =>
  match takeDigitStr 2 s10 with
  | none => none
  | some (sec, s11) =>
  match expectChar '_' s11 with
  | none => none
  | some s12 =>
  match takeHexRun s12 with
  | none => none
  | some (hx, s13) =>
  match expectChar '_' s13 with
  | none => none
  | some s14 =>
    some { year := y, month := mo, day := d, hour := h, minutes := mi,
           seconds := sec, hash := hx, origFilename := dotStarCapture s14 }

/-- Match `rOldPlainFilename` at the start of `s`:
`(dddd)\\.(dd)\\.(dd)-(dd)\\.(dd)\\.(dd)_(.*)`. -/
def matchOldPlainAt (s : GoStr) : Option filenameInfo :=
  match takeDigitStr 4 s with
  | none => none
  | some (y, s1) =>
  match expectChar '.' s1 with
  | none => none
  | some s2 =>
  match takeDigitStr 2 s2 with
  | none => none
  | some (mo, s3) =>
  match expectChar '.' s3 with
  | none => none
  | some s4 =>
  match takeDigitStr 2 s4 with
  | none => none
  | some (d, s5) =>
  match expectChar '-' s5 with
  | none => none
  | some s6 =>
  match takeDigitStr 2 s6 with
  | none => none
  | some (h, s7) =>
  match expectChar '.' s7 with
  | none => none
  | some s8 =>
  match takeDigitStr 2 s8 with
  | none => none
  | some (mi, s9) =>
  match expectChar '.' s9 with
  | none => none
  | some s10 =>
  match takeDigitStr 2 s10 with
  | none => none
  | some (sec, s11) =>
  match expectChar '_' s11 with
  | none => none
  | some s12 =>
    some { year := y, month := mo, day := d, hour := h, minutes := mi,
           seconds := sec, origFilename := dotStarCapture s12 }

/-- The `([+-]dddd)` group of `rFilename`: a sign followed by four digits,
captured with the sign included. -/
def takeTzGroup (s : GoStr) : Option (GoStr × GoStr) :=
  match s with
  | [] => none
  | x :: r =>
    if x = '+' ∨ x = '-' then
      match takeDigitStr 4 r with
      | none => none
      | some (ds, r2) => some (x :: ds, r2)
    else none

/-- Match `rFilename` at the start of `s`:
`(dddd)\\.(dd)\\.(dd)_(dd)\\.(dd)\\.(dd)([+-]dddd)-([0-9a-f]+)-(.*)`. -/
def matchFilenameAt (s : GoStr) : Option filenameInfo :=
  match takeDigitStr 4 s with
  | none => none
  | some (y, s1) =>
  match expectChar '.' s1 with
  | none => none
  | some s2 =>
  match takeDigitStr 2 s2 with
  | none => none
  | some (mo, s3) =>
  match expectChar '.' s3 with
  | none => none
  | some s4 =>
  match takeDigitStr 2 s4 with
  | none => none
  | some (d, s5) =>
  match expectChar '_' s5 with
  | none => none
  | some s6 =>
  match takeDigitStr 2 s6 with
  | none => none
  | some (h, s7) =>
  match expectChar '.' s7 with
  | none => none
  | some s8 =>
  match takeDigitStr 2 s8 with
  | none => none
  | some (mi, s9) =>
  match expectChar '.' s9 with
  | none => none
  | some s10 =>
  match takeDigitStr 2 s10 with
  | none => none
  | some (sec, s11) =>
  match takeTzGroup s11 with
  | none => none
  | some (tz, s12) =>
  match expectChar '-' s12 with
  | none => none
  | some s13 =>
  match takeHexRun s13 with
  | none => none
  | some (hx, s14) =>
  match expectChar '-' s14 with
  | none => none
  | some s15 =>
    some { year := y, month := mo, day := d, hour := h, minutes := mi,
           seconds := sec, tzoffset := tz, hash := hx,
           origFilename := dotStarCapture s15 }

/-- Unanchored leftmost search: try the pattern at every start position. -/
def scanMatch (m : GoStr → Option filenameInfo) : GoStr → Option filenameInfo
  | [] => m []
  | c :: rest =>
    match m (c :: rest) with
    | some i => some i
    | none => scanMatch m rest

/-- `getFilenameAdditionalInfo`: the three patterns are tried in order; the
first one that matches anywhere in the name wins, else all fields empty. -/
def getFilenameAdditionalInfo (s : GoStr) : filenameInfo :=
  match scanMatch matchOldFullAt s with
  | some i => i
  | none =>
  match scanMatch matchOldPlainAt s with
  | some i => i
  | none =>
  match scanMatch matchFilenameAt s with
  | some i => i
  | none => {}

/-! ## Content Fingerprinter (src/main.go lines 93, 261-271)

`getPhotoHash` allocates a `MAX_HASHABLE_SIZE_IN_BYTES` buffer (zero
initialised by `make`), performs one `file.Read` into it, and then hashes
the ENTIRE buffer with `xxhash.Sum64` -- the number of bytes actually read
is ignored except for the zero check.  `hashInput` below is therefore the
file's first bytes zero-padded to exactly the buffer size.  The read is
modelled as returning `min (size, buffer length)` bytes as it does for
regular files. -/

def MAX_HASHABLE_SIZE_IN_BYTES : Nat := 10485760

/-- The exact byte sequence fed to `xxhash.Sum64` by `getPhotoHash`. -/
def hashInput (content : Bytes) : Bytes :=
  content.take MAX_HASHABLE_SIZE_IN_BYTES
    ++ List.replicate (MAX_HASHABLE_SIZE_IN_BYTES
        - min content.length MAX_HASHABLE_SIZE_IN_BYTES) 0

/-- The hash input as the spec and claim C1 describe it: exactly the first
`min (size, MAX_HASHABLE_SIZE_IN_BYTES)` bytes of the file, nothing more. -/
def specHashInput (content : Bytes) : Bytes :=
  content.take MAX_HASHABLE_SIZE_IN_BYTES

/-! xxHash64 (the algorithm of github.com/cespare/xxhash, seed 0),
over lists of byte values, all arithmetic modulo `2 ^ 64`. -/

def M64 : Nat := 18446744073709551616
def XXPRIME1 : Nat := 11400714785074694791
def XXPRIME2 : Nat := 14029467366897019727
def XXPRIME3 : Nat := 1609587929392839161
def XXPRIME4 : Nat := 9650029242287828579
def XXPRIME5 : Nat := 2870177450012600261

/-- 64-bit rotate left. -/
def rotl64 (x r : Nat) : Nat := ((x <<< r) ||| (x >>> (64 - r))) % M64

/-- The xxHash64 round function. -/
def xxRound (acc input : Nat) : Nat :=
  (rotl64 ((acc + input * XXPRIME2) % M64) 31 * XXPRIME1) % M64

/-- The xxHash64 merge round. -/
def xxMergeRound (acc v : Nat) : Nat :=
  (((acc ^^^ xxRound 0 v) * XXPRIME1) % M64 + XXPRIME4) % M64

/-- Little-endian 64-bit word from eight bytes. -/
def u64le (b0 b1 b2 b3 b4 b5 b6 b7 : Nat) : Nat :=
  b0 + b1 * 256 + b2 * 65536 + b3 * 16777216 + b4 * 4294967296
    + b5 * 1099511627776 + b6 * 281474976710656 + b7 * 72057594037927936

/-- Little-endian 32-bit word from four bytes. -/
def u32le (b0 b1 b2 b3 : Nat) : Nat :=
  b0 + b1 * 256 + b2 * 65536 + b3 * 16777216

/-- The xxHash64 avalanche finaliser. -/
def xxAvalanche (h : Nat) : Nat :=
  let h1 := h ^^^ (h >>> 33)
  let h2 := (h1 * XXPRIME2) % M64
  let h3 := h2 ^^^ (h2 >>> 29)
  let h4 := (h3 * XXPRIME3) % M64
  h4 ^^^ (h4 >>> 32)

/-- Tail loop for the last < 4 bytes. -/
def xxBytes (h : Nat) : Bytes → Nat
  | [] => xxAvalanche h
  | b :: rest =>
    xxBytes ((rotl64 (h ^^^ ((b * XXPRIME5) % M64)) 11 * XXPRIME1) % M64) rest

/-- Optional 4-byte step. -/
def xx4 (h : Nat) (l : Bytes) : Nat :=
  match l with
  | b0 :: b1 :: b2 :: b3 :: rest =>
    xxBytes ((rotl64 (h ^^^ ((u32le b0 b1 b2 b3 * XXPRIME1) % M64)) 23
      * XXPRIME2 % M64 + XXPRIME3) % M64) rest
  | rest => xxBytes h rest

/-- Loop over remaining 8-byte words. -/
def xx8 (h : Nat) : Bytes → Nat
  | b0 :: b1 :: b2 :: b3 :: b4 :: b5 :: b6 :: b7 :: rest =>
    xx8 ((rotl64 (h ^^^ xxRound 0 (u64le b0 b1 b2 b3 b4 b5 b6 b7)) 27
      * XXPRIME1 % M64 + XXPRIME4) % M64) rest
  | rest => xx4 h rest

/-- Main 32-byte stripe loop: returns the four lane accumulators and the
unconsumed tail. -/
def xxBlocks (v1 v2 v3 v4 : Nat) : Bytes → Nat × Nat × Nat × Nat × Bytes
  | b0 :: b1 :: b2 :: b3 :: b4 :: b5 :: b6 :: b7 ::
    c0 :: c1 :: c2 :: c3 :: c4 :: c5 :: c6 :: c7 ::
    d0 :: d1 :: d2 :: d3 :: d4 :: d5 :: d6 :: d7 ::
    e0 :: e1 :: e2 :: e3 :: e4 :: e5 :: e6 :: e7 :: rest =>
    xxBlocks (xxRound v1 (u64le b0 b1 b2 b3 b4 b5 b6 b7))
      (xxRound v2 (u64le c0 c1 c2 c3 c4 c5 c6 c7))
      (xxRound v3 (u64le d0 d1 d2 d3 d4 d5 d6 d7))
      (xxRound v4 (u64le e0 e1 e2 e3 e4 e5 e6 e7)) rest
  | rest => (v1, v2, v3, v4, rest)

/-- xxHash64 with seed 0 (`xxhash.Sum64`). -/
def xxhash64 (input : Bytes) : Nat :=
  let n := input.length
  if 32 ≤ n then
    let r := xxBlocks ((XXPRIME1 + XXPRIME2) % M64) XXPRIME2 0 (M64 - XXPRIME1) input
    let h0 := (rotl64 r.1 1 + rotl64 r.2.1 7 + rotl64 r.2.2.1 12 + rotl64 r.2.2.2.1 18) % M64
    let h1 := xxMergeRound h0 r.1
    let h2 := xxMergeRound h1 r.2.1
    let h3 := xxMergeRound h2 r.2.2.1
    let h4 := xxMergeRound h3 r.2.2.2.1
    xx8 ((h4 + n) % M64) r.2.2.2.2
  else
    xx8 ((XXPRIME5 + n) % M64) input

/-- One lowercase hexadecimal digit character. -/
def hexDigitChar (n : Nat) : Char :=
  if n < 10 then Char.ofNat (48 + n) else Char.ofNat (87 + n)

/-- Go's `fmt.Sprintf("%.16x", sum)` for a 64-bit value: exactly sixteen
lowercase, zero-padded hexadecimal digits. -/
def hex16 (n : Nat) : GoStr :=
  (List.range 16).map (fun i => hexDigitChar ((n >>> ((15 - i) * 4)) % 16))

/-- `getPhotoHash`: panics (`none`) when zero bytes are read (empty file),
otherwise the formatted xxHash64 of the zero-padded read buffer. -/
def getPhotoHash (content : Bytes) : Option GoStr :=
  if content = [] then none
  else some (hex16 (xxhash64 (hashInput content)))

/-! ## Environment: the external world

`Env` packages the program's external collaborators:
* `exifTags` -- the flattened `(TagName, Formatted)` entries produced by the
  external go-exif library for a file's bytes; `none` is any library error
  (no EXIF blob, undecodable data).  The library is deterministic in the
  file's bytes.
* `statCtim`, `statMtim` -- the `time.Unix`-converted `Ctim`/`Mtim` fields
  of `os.Stat` per path (local wall-clock times, as in `getFileCtime`).
* `node` -- the file-system tree seen by `os.Stat` in `validateDir`:
  `none` when the path does not exist, `some isDir` otherwise.
* `hash` -- the content fingerprinter as a function of the file's bytes.
  `getPhotoHash` (defined above from the source) is its concrete instance
  on nonempty contents; it is kept as a parameter so that placement-engine
  theorems quantify over every hash function, and the properties the proofs
  need of it (16 characters, no hyphen, no slash) are proved for
  `getPhotoHash` in `getPhotoHash_good` below. -/
structure Env where
  exifTags : Bytes → Option (List (GoStr × GoStr))
  statCtim : GoStr → GoTime
  statMtim : GoStr → GoTime
  node : GoStr → Option Bool
  hash : Bytes → GoStr

/-- The properties of the fingerprinter that the Placement Engine proofs
use; `getPhotoHash_good` shows the real fingerprinter has them. -/
def GoodHash (hash : Bytes → GoStr) : Prop :=
  ∀ c, (hash c).length = 16 ∧ '-' ∉ hash c ∧ '/' ∉ hash c

/-! ## Timestamp Resolver (src/main.go lines 135-184, 234-258) -/

/-- The `timeSrc` enumeration of main.go. -/
inductive timeSrc where
  | TIMESRC_EXIF
  | TIMESRC_EXIF_NO_TZ
  | TIMESRC_FILENAME
  | TIMESRC_CTIME
deriving DecidableEq

/-- The tag-selection loop of `getExifCreationTime`: the last matching
entry wins, the Go zero value is the empty string. -/
def lastTagValue (tag : GoStr) (entries : List (GoStr × GoStr)) : GoStr :=
  entries.foldl (fun acc e => if e.1 = tag then e.2 else acc) []

/-- `getExifCreationTime` given the library's flattened entries: pick the
`DateTimeOriginal` and `OffsetTimeOriginal` values, fail on a missing
date tag, parse naive or offset-qualified; the boolean is `haveTz`.
`none` is any non-nil error return. -/
def getExifCreationTime (tags : Option (List (GoStr × GoStr))) : Option (GoTime × Bool) :=
  match tags with
  | none => none
  | some entries =>
    let dtStr := lastTagValue "DateTimeOriginal".data entries
    let offsetStr := lastTagValue "OffsetTimeOriginal".data entries
    if dtStr = [] then none
    else if offsetStr = [] then (goParseExifNaive dtStr).map (fun t => (t, false))
    else (goParseExifOffset (dtStr ++ offsetStr)).map (fun t => (t, true))

/-- `getFileCtime`: the earlier of the stat change and modification times. -/
def getFileCtime (env : Env) (path : GoStr) : GoTime :=
  let ctim := env.statCtim path
  let mtim := env.statMtim path
  if goTimeBefore ctim mtim then ctim else mtim

/-- The date string rebuilt from the captured filename components
(`fmt.Sprintf("%s.%s.%s_%s.%s.%s%s", ...)`). -/
def filenameDatestr (ai : filenameInfo) : GoStr :=
  ai.year ++ '.' :: ai.month ++ '.' :: ai.day
    ++ '_' :: ai.hour ++ '.' :: ai.minutes ++ '.' :: ai.seconds ++ ai.tzoffset

/-- The `time.Parse` call of the filename branch: layout chosen by whether a
timezone fragment was captured. -/
def parseFilenameTime (ai : filenameInfo) : Option GoTime :=
  if ai.tzoffset ≠ [] then goParseFnOffset (filenameDatestr ai)
  else goParseFnNaive (filenameDatestr ai)

/-- `getPhotoCreationTime`: EXIF (when the extension allows it and the read
and parse succeed), then legacy-filename reconstruction, then stat times.
The first component is `none` exactly when the Go version returns a non-nil
error (which makes the caller panic). -/
def getPhotoCreationTime (env : Env) (path : GoStr) (content : Bytes)
    (ai : filenameInfo) : Option GoTime × timeSrc :=
  match (if couldHaveExif path then getExifCreationTime (env.exifTags content) else none) with
  | some (t, haveTz) =>
    if haveTz then (some t, timeSrc.TIMESRC_EXIF) else (some t, timeSrc.TIMESRC_EXIF_NO_TZ)
  | none =>
    if ai.origFilename ≠ [] then (parseFilenameTime ai, timeSrc.TIMESRC_FILENAME)
    else (some (getFileCtime env path), timeSrc.TIMESRC_CTIME)

/-! ## Destination Namer (src/main.go lines 274-306) -/

/-- The name component used by the media branch: the recovered original
filename when a legacy pattern matched, else the on-disk base name
(src/main.go lines 279-286). -/
def pickedName (path : GoStr) : GoStr :=
  let ai := getFilenameAdditionalInfo (basenameGo path)
  if ai.origFilename ≠ [] then ai.origFilename else basenameGo path

/-- `getSortedDestination`.  `none` is a panic (timestamp resolution error,
or `getPhotoHash` on an empty file).  The media branch embeds the
fingerprint and prefers the recovered original filename; the non-media
branch keeps the on-disk name and always reports `TIMESRC_FILENAME`. -/
def getSortedDestination (env : Env) (path : GoStr) (content : Bytes)
    (dstBaseDir : GoStr) : Option (GoStr × timeSrc) :=
  let additionalInfo := getFilenameAdditionalInfo (basenameGo path)
  match getPhotoCreationTime env path content additionalInfo with
  | (none, _) => none
  | (some t, tSrc) =>
    if isMedia path then
      if content = [] then none
      else
        some (dstBaseDir ++ natDec t.year ++ '/' :: (pad2 t.month ++ '/' ::
          (fmtTimestamp t ++ '-' :: (env.hash content ++ '-' :: pickedName path))), tSrc)
    else
      some (dstBaseDir ++ natDec t.year ++ '/' :: (pad2 t.month ++ '/' :: basenameGo path),
        timeSrc.TIMESRC_FILENAME)

/-! ## File-system state and the Placement Engine (src/main.go lines 309-391) -/

/-- Association-list lookup (first binding wins). -/
def fsLookup (fs : List (GoStr × Bytes)) (p : GoStr) : Option Bytes :=
  match fs with
  | [] => none
  | (k, v) :: rest => if k = p then some v else fsLookup rest p

/-- `os.Remove p`. -/
def fsRemove (fs : List (GoStr × Bytes)) (p : GoStr) : List (GoStr × Bytes) :=
  fs.filter (fun kv => decide (¬ kv.1 = p))

/-- Write `v` at `p` (the effect of `copyFile _ p`). -/
def fsInsert (fs : List (GoStr × Bytes)) (p : GoStr) (v : Bytes) : List (GoStr × Bytes) :=
  if (fsLookup fs p).isSome then fs.map (fun kv => if kv.1 = p then (p, v) else kv)
  else fs ++ [(p, v)]

/-- Insert a directory (`os.MkdirAll` is idempotent). -/
def dirInsert (ds : List GoStr) (d : GoStr) : List GoStr :=
  if d ∈ ds then ds else ds ++ [d]

/-- The mutable file system: regular files with contents, plus the set of
directories created so far (ancestors elided). -/
structure FS where
  files : List (GoStr × Bytes)
  dirs : List GoStr
deriving DecidableEq

/-- `validateFile`: split the base name on `-`; fewer than 3 fields, or a
second field that is not 16 characters, only builds an error value with
`fmt.Errorf` that is DISCARDED, and the function returns `true` (valid).
Otherwise compare the embedded hash with the recomputed fingerprint.
`none` is the `getPhotoHash` panic on an empty file. -/
def validateFile (hash : Bytes → GoStr) (path : GoStr) (content : Bytes) : Option Bool :=
  let parts := splitOnChar '-' (basenameGo path)
  if parts.length < 3 then some true
  else if (parts.getD 1 []).length ≠ 16 then some true
  else if content = [] then none
  else some (decide (parts.getD 1 [] = hash content))

/-- The per-file report line fields of `sortFileIntoDestination` (index and
totals elided; `dstPath` is recorded for the statements). -/
structure Report where
  doesDestExist : Bool
  isDestInvalid : Bool
  bytesCopied : Nat
  tSrc : timeSrc
  dstPath : GoStr
deriving DecidableEq

/-- `sortFileIntoDestination`: compute the destination, create its
directory, validate an existing media destination (deleting an invalid
one -- note the `os.Remove` is NOT guarded by `dryRun`), and copy unless
dry-run or a valid destination exists.  `none` is a panic. -/
def sortFileIntoDestination (env : Env) (path : GoStr) (dstBaseDir : GoStr)
    (dryRun : Bool) (fs : FS) : Option (FS × Report) :=
  match fsLookup fs.files path with
  | none => none
  | some content =>
  match getSortedDestination env path content dstBaseDir with
  | none => none
  | some (dstPath, tSrc) =>
    let fs1 : FS := { fs with dirs := dirInsert fs.dirs (dirnameGo dstPath) }
    let step : Option (Bool × Bool × FS) :=
      match fsLookup fs1.files dstPath with
      | some dc =>
        if isMedia dstPath then
          match validateFile env.hash dstPath dc with
          | none => none
          | some ok =>
            if ok then some (true, false, fs1)
            else some (true, true, { fs1 with files := fsRemove fs1.files dstPath })
        else some (true, false, fs1)
      | none => some (false, false, fs1)
    match step with
    | none => none
    | some (dExists, dInvalid, fs2) =>
      if dryRun = false ∧ (dExists = false ∨ dInvalid = true) then
        match fsLookup fs2.files path with
        | none => none
        | some src =>
          some ({ fs2 with files := fsInsert fs2.files dstPath src },
            ⟨dExists, dInvalid, src.length, tSrc, dstPath⟩)
      else some (fs2, ⟨dExists, dInvalid, 0, tSrc, dstPath⟩)

/-! ## Directory validation and the whole run (src/main.go lines 315-327, 394-442) -/

/-- A path with its trailing slashes removed (the canonical name `stat`
resolves). -/
def stripSlashes (p : GoStr) : GoStr := (p.reverse.dropWhile (fun c => c = '/')).reverse

/-- POSIX `stat` as invoked through `os.Stat`: a path with a trailing slash
resolves only if it names a directory (`ENOTDIR` otherwise).  This models
the operating system, not repository code. -/
def goStat (node : GoStr → Option Bool) (p : GoStr) : Option Bool :=
  let q := stripSlashes p
  match node q with
  | none => none
  | some isDir => if p ≠ q ∧ ¬ isDir then none else some isDir

/-- `validateDir`: append a trailing slash when missing, `os.Stat` the
result (panicking on error), and -- because the `fmt.Errorf` result of the
`IsDir` test is DISCARDED -- return the path regardless of what the test
found. -/
def validateDir (env : Env) (dirPath : GoStr) : Option GoStr :=
  let p := if hasSuffixL dirPath ['/'] then dirPath else dirPath ++ ['/']
  match goStat env.node p with
  | none => none
  | some _isDir => some p

/-- Process a traversal-ordered list of source files. -/
def runAll (env : Env) (dstBaseDir : GoStr) (dryRun : Bool) :
    List GoStr → FS → Option (FS × List Report)
  | [], fs => some (fs, [])
  | p :: ps, fs =>
    match sortFileIntoDestination env p dstBaseDir dryRun fs with
    | none => none
    | some (fs1, r) =>
      match runAll env dstBaseDir dryRun ps fs1 with
      | none => none
      | some (fs2, rs) => some (fs2, r :: rs)

/-- The body of `main` after flag parsing: validate both directories, then
place every file the walker yields.  A `none` anywhere is a fatal abort of
the whole run. -/
def runPipeline (env : Env) (srcDirArg dstDirArg : GoStr) (files : List GoStr)
    (dryRun : Bool) (fs : FS) : Option (FS × List Report) :=
  match validateDir env srcDirArg with
  | none => none
  | some _srcDir =>
  match validateDir env dstDirArg with
  | none => none
  | some dstBaseDir => runAll env dstBaseDir dryRun files fs

/-- Sanity bound on the stat metadata of the environment: real zone offsets
are at most one day in magnitude (Go produces local-zone times here). -/
def SaneStats (env : Env) : Prop :=
  ∀ p, (env.statCtim p).offMin.natAbs ≤ 1440 ∧ (env.statMtim p).offMin.natAbs ≤ 1440

/-! ## Concrete scenarios used by the closed witness and counterexample
theorems.  Outputs were checked against hand evaluation of the Go code. -/

/-- Environment with no EXIF data and fixed stat times (ctime fallback). -/
def envCtime : Env where
  exifTags := fun _ => none
  statCtim := fun _ => ⟨2021, 1, 2, 3, 4, 5, 0, 0⟩
  statMtim := fun _ => ⟨2022, 1, 1, 0, 0, 0, 0, 0⟩
  node := fun _ => some true
  hash := fun _ => "0123456789abcdef".data

/-- A media source file. -/
def srcJpg : GoStr := "s/IMG.JPG".data

/-- Initial tree holding only the source file. -/
def fsOne : FS := ⟨[(srcJpg, [1, 2, 3])], []⟩

/-- Destination the engine computes for `srcJpg` under `envCtime`. -/
def dstCtime : GoStr :=
  "d/2021/01/2021.01.02_03.04.05+0000-0123456789abcdef-IMG.JPG".data

/-- Tree after the first (non-dry) run on `fsOne`. -/
def fsAfterOne : FS :=
  ⟨[(srcJpg, [1, 2, 3]), (dstCtime, [1, 2, 3])], ["d/2021/01".data]⟩

/-- Report of that first run. -/
def repFirst : Report := ⟨false, false, 3, timeSrc.TIMESRC_CTIME, dstCtime⟩

/-- Report of the second run. -/
def repSecond : Report := ⟨true, false, 0, timeSrc.TIMESRC_CTIME, dstCtime⟩

/-- Like `envCtime` but the fingerprint distinguishes the one-byte stale
destination content from the three-byte source (dry-run deletion scenario). -/
def envDry : Env :=
  { envCtime with hash := fun c =>
      if c.length ≤ 1 then "aaaaaaaaaaaaaaaa".data else "0123456789abcdef".data }

/-- Tree with a stale (mismatching) destination already present. -/
def fsDry : FS := ⟨[(srcJpg, [1, 2, 3]), (dstCtime, [9])], []⟩

/-- Environment whose EXIF data carries a negative UTC offset of -05:00. -/
def envNeg5 : Env :=
  { envCtime with
    exifTags := fun _ =>
      some [("DateTimeOriginal".data, "2020:08:27 11:00:00".data),
            ("OffsetTimeOriginal".data, "-05:00".data)]
    hash := fun c =>
      if c.length = 2 then "bbbbbbbbbbbbbbbb".data else "0123456789abcdef".data }

/-- Destination computed under `envNeg5`: the negative offset puts a hyphen
inside the timestamp component. -/
def dstNeg5 : GoStr :=
  "d/2020/08/2020.08.27_11.00.00-0500-0123456789abcdef-IMG.JPG".data

/-- Tree with an existing two-byte destination entry at `dstNeg5`. -/
def fsNeg5 : FS := ⟨[(srcJpg, [1, 2, 3]), (dstNeg5, [9, 9])], []⟩

/-- Same shape with offset -08:00 (used for the validation-abort claim). -/
def envNeg8 : Env :=
  { envCtime with
    exifTags := fun _ =>
      some [("DateTimeOriginal".data, "2020:08:27 11:00:00".data),
            ("OffsetTimeOriginal".data, "-08:00".data)]
    hash := fun c =>
      if c.length = 2 then "cccccccccccccccc".data else "0123456789abcdef".data }

/-- Destination computed under `envNeg8`. -/
def dstNeg8 : GoStr :=
  "d/2020/08/2020.08.27_11.00.00-0800-0123456789abcdef-IMG.JPG".data

/-- Tree with an existing destination entry at `dstNeg8`. -/
def fsNeg8 : FS := ⟨[(srcJpg, [1, 2, 3]), (dstNeg8, [9, 9])], []⟩

/-- Same shape with offset -03:00 (witness for the skipped-validation claim). -/
def envNeg3 : Env :=
  { envCtime with
    exifTags := fun _ =>
      some [("DateTimeOriginal".data, "2020:08:27 11:00:00".data),
            ("OffsetTimeOriginal".data, "-03:00".data)]
    hash := fun c =>
      if c.length = 2 then "dddddddddddddddd".data else "0123456789abcdef".data }

/-- Destination computed under `envNeg3`. -/
def dstNeg3 : GoStr :=
  "d/2020/08/2020.08.27_11.00.00-0300-0123456789abcdef-IMG.JPG".data

/-- Tree with an existing destination entry at `dstNeg3`. -/
def fsNeg3 : FS := ⟨[(srcJpg, [1, 2, 3]), (dstNeg3, [9, 9])], []⟩

/-- Environment whose EXIF data has a date-taken tag but no offset tag. -/
def envNoTz : Env :=
  { envCtime with
    exifTags := fun _ =>
      some [("DateTimeOriginal".data, "2021:01:01 05:23:11".data)] }

/-- Environment realising the spec's worked example (offset +01:00,
fingerprint `b46976ab6907346a`). -/
def envSpec : Env :=
  { envCtime with
    exifTags := fun _ =>
      some [("DateTimeOriginal".data, "2020:08:27 11:00:00".data),
            ("OffsetTimeOriginal".data, "+01:00".data)]
    hash := fun _ => "b46976ab6907346a".data }

/-- Environment in which `f.txt` exists but is a regular file. -/
def envNotDir : Env :=
  { envCtime with node := fun p => if p = "f.txt".data then some false else some true }

/-! ## Helper lemmas: digits and decimal rendering -/

theorem digitChar10_digit (d : Nat) : isDigitC (digitChar10 d) = true ∧
    digitChar10 d ≠ '-' ∧ digitChar10 d ≠ '/' := by
  have hb : d % 10 < 10 := Nat.mod_lt _ (by omega)
  have : ∀ k, k < 10 → isDigitC (Char.ofNat (48 + k)) = true ∧
      Char.ofNat (48 + k) ≠ '-' ∧ Char.ofNat (48 + k) ≠ '/' := by decide
  exact this (d % 10) hb

theorem natDecAux_congr : ∀ f1 f2 m, m < f1 → m < f2 → natDecAux f1 m = natDecAux f2 m := by
  intro f1
  induction f1 with
  | zero => intro f2 m h1 _; omega
  | succ f ih =>
    intro f2 m h1 h2
    cases f2 with
    | zero => omega
    | succ f2 =>
      simp only [natDecAux]
      by_cases h : m < 10
      · simp [h]
      · have hd : m / 10 < m := Nat.div_lt_self (by omega) (by omega)
        simp only [if_neg h]
        rw [ih f2 (m / 10) (by omega) (by omega)]

theorem natDec_eq (n : Nat) :
    natDec n = if n < 10 then [digitChar10 n] else natDec (n / 10) ++ [digitChar10 n] := by
  show natDecAux (n + 1) n = _
  by_cases h : n < 10
  · simp [natDecAux, h]
  · have hd : n / 10 < n := Nat.div_lt_self (by omega) (by omega)
    simp only [natDecAux, if_neg h]
    rw [natDecAux_congr n (n / 10 + 1) (n / 10) (by omega) (by omega)]
    rfl

theorem natDec_digit (n : Nat) : ∀ c ∈ natDec n, isDigitC c = true := by
  induction n using Nat.strong_induction_on with
  | _ n ih =>
    rw [natDec_eq]
    by_cases h : n < 10
    · simp only [if_pos h, List.mem_singleton]
      rintro c rfl
      exact (digitChar10_digit n).1
    · simp only [if_neg h, List.mem_append, List.mem_singleton]
      rintro c (hc | rfl)
      · exact ih (n / 10) (Nat.div_lt_self (by omega) (by omega)) c hc
      · exact (digitChar10_digit n).1

theorem isDigitC_ne (c : Char) (h : isDigitC c = true) : c ≠ '-' ∧ c ≠ '/' := by
  constructor
  · rintro rfl; simp [isDigitC] at h
  · rintro rfl; simp [isDigitC] at h

theorem natDec_length_pos (n : Nat) : 1 ≤ (natDec n).length := by
  rw [natDec_eq]
  by_cases h : n < 10 <;> simp [h]

theorem natDec_ne_nil (n : Nat) : natDec n ≠ [] := by
  have := natDec_length_pos n
  intro h
  rw [h] at this
  simp at this

theorem natDec_length_eq_one (n : Nat) (h : n < 10) : (natDec n).length = 1 := by
  rw [natDec_eq, if_pos h]
  rfl

theorem natDec_length_le_two (n : Nat) (h : n < 100) : (natDec n).length ≤ 2 := by
  rw [natDec_eq]
  by_cases h1 : n < 10
  · simp [h1]
  · rw [if_neg h1]
    simp [natDec_length_eq_one (n / 10) (by omega)]

theorem natDec_length_le_three (n : Nat) (h : n < 1000) : (natDec n).length ≤ 3 := by
  rw [natDec_eq]
  by_cases h1 : n < 10
  · simp [h1]
  · rw [if_neg h1]
    have := natDec_length_le_two (n / 10) (by omega)
    simp
    omega

theorem pad2_digit (n : Nat) : ∀ c ∈ pad2 n, isDigitC c = true := by
  intro c hc
  unfold pad2 at hc
  by_cases h : n < 10
  · rw [if_pos h] at hc
    rcases List.mem_cons.1 hc with rfl | hc
    · decide
    · exact natDec_digit n c hc
  · rw [if_neg h] at hc
    exact natDec_digit n c hc

theorem pad4_digit (n : Nat) : ∀ c ∈ pad4 n, isDigitC c = true := by
  intro c hc
  unfold pad4 at hc
  have h0 : isDigitC '0' = true := by decide
  split at hc
  · rcases List.mem_cons.1 hc with rfl | hc
    · exact h0
    rcases List.mem_cons.1 hc with rfl | hc
    · exact h0
    rcases List.mem_cons.1 hc with rfl | hc
    · exact h0
    exact natDec_digit n c hc
  split at hc
  · rcases List.mem_cons.1 hc with rfl | hc
    · exact h0
    rcases List.mem_cons.1 hc with rfl | hc
    · exact h0
    exact natDec_digit n c hc
  split at hc
  · rcases List.mem_cons.1 hc with rfl | hc
    · exact h0
    exact natDec_digit n c hc
  exact natDec_digit n c hc

theorem pad2_length_ge (n : Nat) : 2 ≤ (pad2 n).length := by
  unfold pad2
  by_cases h : n < 10
  · simp [h, natDec_length_eq_one n h]
  · rw [if_neg h, natDec_eq, if_neg h]
    have := natDec_length_pos (n / 10)
    simp
    omega

theorem pad2_length_eq_two (n : Nat) (h : n < 100) : (pad2 n).length = 2 := by
  unfold pad2
  by_cases h1 : n < 10
  · simp [h1, natDec_length_eq_one n h1]
  · rw [if_neg h1, natDec_eq, if_neg h1]
    simp [natDec_length_eq_one (n / 10) (by omega)]

theorem pad2_length_le_three (n : Nat) (h : n < 1000) : (pad2 n).length ≤ 3 := by
  unfold pad2
  by_cases h1 : n < 10
  · simp [h1, natDec_length_eq_one n h1]
  · rw [if_neg h1]
    exact natDec_length_le_three n h

/-! ## Helper lemmas: the timestamp rendering -/

theorem offsetDigits_digit (t : GoTime) : ∀ c ∈ offsetDigits t, isDigitC c = true := by
  unfold offsetDigits
  intro c hc
  rcases List.mem_append.1 hc with h | h
  · exact pad2_digit _ c h
  · exact pad2_digit _ c h

theorem offsetDigits_length (t : GoTime) (h : t.offMin.natAbs ≤ 6039) :
    4 ≤ (offsetDigits t).length ∧ (offsetDigits t).length ≤ 5 := by
  unfold offsetDigits
  have h1 : t.offMin.natAbs / 60 < 1000 := by omega
  have h2 : t.offMin.natAbs % 60 < 100 := by omega
  have g1 := pad2_length_ge (t.offMin.natAbs / 60)
  have g2 := pad2_length_le_three _ h1
  have g3 := pad2_length_eq_two _ h2
  simp only [List.length_append]
  omega

theorem fmtCore_chars (t : GoTime) (c : Char) (hc : c ∈ fmtTimestampCore t) :
    isDigitC c = true ∨ c = '.' ∨ c = '_' := by
  unfold fmtTimestampCore at hc
  simp only [List.mem_append, List.mem_cons] at hc
  casesm* _ ∨ _
  all_goals first
    | exact Or.inr (Or.inl ‹_›)
    | exact Or.inr (Or.inr ‹_›)
    | exact Or.inl (pad4_digit _ _ ‹_›)
    | exact Or.inl (pad2_digit _ _ ‹_›)

theorem fmtTimestampCore_no_dash (t : GoTime) : '-' ∉ fmtTimestampCore t := by
  intro hc
  rcases fmtCore_chars t '-' hc with h | h | h
  · exact absurd h (by decide)
  · exact absurd h (by decide)
  · exact absurd h (by decide)

theorem fmtTimestampCore_no_slash (t : GoTime) : '/' ∉ fmtTimestampCore t := by
  intro hc
  rcases fmtCore_chars t '/' hc with h | h | h
  · exact absurd h (by decide)
  · exact absurd h (by decide)
  · exact absurd h (by decide)

theorem fmtTimestamp_no_slash (t : GoTime) : '/' ∉ fmtTimestamp t := by
  unfold fmtTimestamp
  intro hc
  rcases List.mem_append.1 hc with h | h
  · exact fmtTimestampCore_no_slash t h
  · rcases List.mem_cons.1 h with h1 | h1
    · revert h1
      by_cases hs : t.offMin < 0 <;> simp [hs]
    · exact (isDigitC_ne _ (offsetDigits_digit t _ h1)).2 rfl

theorem fmtTimestamp_no_dash_nonneg (t : GoTime) (h : ¬ t.offMin < 0) :
    '-' ∉ fmtTimestamp t := by
  unfold fmtTimestamp
  rw [if_neg h]
  intro hc
  rcases List.mem_append.1 hc with hm | hm
  · exact fmtTimestampCore_no_dash t hm
  · rcases List.mem_cons.1 hm with h1 | h1
    · exact absurd h1 (by decide)
    · exact (isDigitC_ne _ (offsetDigits_digit t _ h1)).1 rfl

theorem fmtTimestamp_neg_split (t : GoTime) (h : t.offMin < 0) :
    fmtTimestamp t = fmtTimestampCore t ++ '-' :: offsetDigits t := by
  unfold fmtTimestamp
  rw [if_pos h]

theorem fmtTimestamp_ne_nil (t : GoTime) : fmtTimestamp t ≠ [] := by
  unfold fmtTimestamp
  exact List.append_ne_nil_of_right_ne_nil _ (by simp)

/-! ## Helper lemmas: splitting -/

theorem splitOnChar_ne_nil (sep : Char) (s : GoStr) : splitOnChar sep s ≠ [] := by
  cases s with
  | nil => simp [splitOnChar]
  | cons c rest =>
    unfold splitOnChar
    cases h : splitOnChar sep rest with
    | nil => simp
    | cons g gs => by_cases hc : c = sep <;> simp [hc]

theorem splitOnChar_no_sep (sep : Char) (a : GoStr) (h : sep ∉ a) :
    splitOnChar sep a = [a] := by
  induction a with
  | nil => rfl
  | cons c rest ih =>
    have hc : c ≠ sep := fun hx => h (hx ▸ List.mem_cons_self c rest)
    have hr : sep ∉ rest := fun hx => h (List.mem_cons_of_mem c hx)
    unfold splitOnChar
    rw [ih hr]
    simp [hc]

theorem splitOnChar_append (sep : Char) (a rest : GoStr) (h : sep ∉ a) :
    splitOnChar sep (a ++ sep :: rest) = a :: splitOnChar sep rest := by
  induction a with
  | nil =>
    simp only [List.nil_append]
    rw [show splitOnChar sep (sep :: rest) =
        (match splitOnChar sep rest with
         | [] => [[]]
         | g :: gs => if sep = sep then [] :: g :: gs else (sep :: g) :: gs) from rfl]
    cases hr : splitOnChar sep rest with
    | nil => exact absurd hr (splitOnChar_ne_nil sep rest)
    | cons g gs => simp
  | cons c a2 ih =>
    have hc : c ≠ sep := fun hx => h (hx ▸ List.mem_cons_self c a2)
    have ha : sep ∉ a2 := fun hx => h (List.mem_cons_of_mem c hx)
    simp only [List.cons_append]
    rw [show splitOnChar sep (c :: (a2 ++ sep :: rest)) =
        (match splitOnChar sep (a2 ++ sep :: rest) with
         | [] => [[]]
         | g :: gs => if c = sep then [] :: g :: gs else (c :: g) :: gs) from rfl]
    rw [ih ha]
    simp [hc]

theorem splitOnChar_length_pos (sep : Char) (s : GoStr) :
    1 ≤ (splitOnChar sep s).length := by
  have := splitOnChar_ne_nil sep s
  cases h : splitOnChar sep s with
  | nil => exact absurd h this
  | cons g gs => simp

/-! ## Helper lemmas: takeWhile, dropWhile, basename -/

theorem takeWhile_all_append (p : Char → Bool) (xs ys : GoStr)
    (hall : ∀ x ∈ xs, p x = true) :
    (xs ++ ys).takeWhile p = xs ++ ys.takeWhile p := by
  induction xs with
  | nil => simp
  | cons x xs2 ih =>
    have hx := hall x (List.mem_cons_self x xs2)
    simp only [List.cons_append, List.takeWhile_cons, hx]
    rw [ih (fun y hy => hall y (List.mem_cons_of_mem x hy))]
    simp

theorem takeWhile_all_stop (p : Char → Bool) (xs ys : GoStr) (y : Char)
    (hall : ∀ x ∈ xs, p x = true) (hy : p y = false) :
    (xs ++ y :: ys).takeWhile p = xs := by
  rw [takeWhile_all_append p xs (y :: ys) hall]
  simp [List.takeWhile_cons, hy]

theorem dropWhile_cons_neg (p : Char → Bool) (x : Char) (xs : GoStr) (h : p x = false) :
    (x :: xs).dropWhile p = x :: xs := by
  simp [List.dropWhile_cons, h]

theorem basenameGo_concat (pre name : GoStr) (hns : '/' ∉ name) (hnn : name ≠ []) :
    basenameGo (pre ++ '/' :: name) = name := by
  obtain ⟨c, cs, hrev⟩ := List.exists_cons_of_ne_nil
    (fun h => hnn (by simpa using congrArg List.reverse h) : name.reverse ≠ [])
  have hcmem : c ∈ name := by
    rw [← List.mem_reverse, hrev]; exact List.mem_cons_self c cs
  have hcne : c ≠ '/' := fun h => hns (h ▸ hcmem)
  have hples : (pre ++ '/' :: name) ≠ [] := by simp
  unfold basenameGo
  rw [if_neg hples]
  have hrw : (pre ++ '/' :: name).reverse = c :: (cs ++ '/' :: pre.reverse) := by
    rw [List.reverse_append]
    simp [hrev]
  have hdrop : ((pre ++ '/' :: name).reverse.dropWhile (fun x => x = '/')) =
      c :: (cs ++ '/' :: pre.reverse) := by
    rw [hrw]
    exact dropWhile_cons_neg _ c _ (by simp [hcne])
  have hq : ((pre ++ '/' :: name).reverse.dropWhile (fun x => x = '/')).reverse =
      pre ++ '/' :: name := by
    rw [hdrop, ← hrw, List.reverse_reverse]
  rw [hq, if_neg hples]
  unfold lastSeg
  rw [hrw]
  have hall : ∀ x ∈ (c :: cs : GoStr), (fun y => decide ¬ y = '/') x = true := by
    intro x hx
    have hxn : x ∈ name := by rw [← List.mem_reverse, hrev]; exact hx
    have hx2 : x ≠ '/' := fun h => hns (h ▸ hxn)
    simp [hx2]
  have : List.takeWhile (fun y => decide ¬ y = '/') (c :: cs ++ '/' :: pre.reverse) =
      c :: cs := takeWhile_all_stop _ (c :: cs) pre.reverse '/' hall (by simp)
  simp only [List.cons_append] at this ⊢
  rw [this, ← hrev, List.reverse_reverse]

theorem basenameGo_ne_nil (p : GoStr) : basenameGo p ≠ [] := by
  unfold basenameGo
  by_cases hp : p = []
  · simp [hp]
  rw [if_neg hp]
  show (if (p.reverse.dropWhile (fun c => c = '/')).reverse = []
        then ['/'] else lastSeg ((p.reverse.dropWhile (fun c => c = '/')).reverse)) ≠ []
  by_cases hq : (p.reverse.dropWhile (fun c => c = '/')).reverse = []
  · rw [if_pos hq]; simp
  rw [if_neg hq]
  have hqne : p.reverse.dropWhile (fun c => c = '/') ≠ [] := by
    intro h
    exact hq (by simp [h])
  obtain ⟨c, cs, hdw⟩ := List.exists_cons_of_ne_nil hqne
  have hc : ((fun x => x = '/') ((p.reverse.dropWhile (fun c => c = '/')).head hqne) : Bool)
      = false := List.head_dropWhile_not _ _ hqne
  have hchead : (p.reverse.dropWhile (fun c => c = '/')).head hqne = c := by
    simp [hdw]
  rw [hchead] at hc
  unfold lastSeg
  rw [List.reverse_reverse, hdw, List.takeWhile_cons]
  have hcc : (decide ¬ c = '/') = true := by
    simp only [decide_not]
    rw [show (decide (c = '/')) = false from by simpa using hc]
    rfl
  rw [hcc]
  simp

/-! ## Helper lemmas: the file-system maps -/

theorem fsLookup_cons (k : GoStr) (w : Bytes) (rest : List (GoStr × Bytes)) (p : GoStr) :
    fsLookup ((k, w) :: rest) p = if k = p then some w else fsLookup rest p := rfl

theorem fsLookup_map_replace (fs : List (GoStr × Bytes)) (p : GoStr) (v : Bytes)
    (h : (fsLookup fs p).isSome) :
    fsLookup (fs.map (fun kv => if kv.1 = p then (p, v) else kv)) p = some v := by
  induction fs with
  | nil => simp [fsLookup] at h
  | cons kv rest ih =>
    obtain ⟨k, w⟩ := kv
    by_cases hk : k = p
    · rw [List.map_cons, show (if (k, w).1 = p then (p, v) else (k, w)) = (p, v) from by
        simp [hk]]
      simp [fsLookup_cons]
    · rw [List.map_cons, show (if (k, w).1 = p then (p, v) else (k, w)) = (k, w) from by
        simp [hk]]
      rw [fsLookup_cons, if_neg hk]
      apply ih
      rw [fsLookup_cons, if_neg hk] at h
      exact h

theorem fsLookup_map_replace_ne (fs : List (GoStr × Bytes)) (p q : GoStr) (v : Bytes)
    (h : q ≠ p) :
    fsLookup (fs.map (fun kv => if kv.1 = p then (p, v) else kv)) q = fsLookup fs q := by
  induction fs with
  | nil => rfl
  | cons kv rest ih =>
    obtain ⟨k, w⟩ := kv
    by_cases hk : k = p
    · rw [List.map_cons, show (if (k, w).1 = p then (p, v) else (k, w)) = (p, v) from by
        simp [hk]]
      rw [fsLookup_cons, fsLookup_cons, if_neg (fun hx => h hx.symm),
        if_neg (fun hx : k = q => h (hx ▸ hk ▸ rfl))]
      exact ih
    · rw [List.map_cons, show (if (k, w).1 = p then (p, v) else (k, w)) = (k, w) from by
        simp [hk]]
      rw [fsLookup_cons, fsLookup_cons]
      by_cases hq : k = q
      · simp [hq]
      · rw [if_neg hq, if_neg hq]
        exact ih

theorem fsLookup_append_single (fs : List (GoStr × Bytes)) (p : GoStr) (v : Bytes)
    (h : fsLookup fs p = none) :
    fsLookup (fs ++ [(p, v)]) p = some v := by
  induction fs with
  | nil => simp [fsLookup_cons, fsLookup]
  | cons kv rest ih =>
    obtain ⟨k, w⟩ := kv
    rw [fsLookup_cons] at h
    by_cases hk : k = p
    · rw [if_pos hk] at h
      exact absurd h (by simp)
    · rw [if_neg hk] at h
      rw [List.cons_append, fsLookup_cons, if_neg hk]
      exact ih h

theorem fsLookup_append_single_ne (fs : List (GoStr × Bytes)) (p q : GoStr) (v : Bytes)
    (h : q ≠ p) :
    fsLookup (fs ++ [(p, v)]) q = fsLookup fs q := by
  induction fs with
  | nil =>
    show fsLookup [(p, v)] q = none
    rw [fsLookup_cons, if_neg (fun hx => h hx.symm)]
    rfl
  | cons kv rest ih =>
    obtain ⟨k, w⟩ := kv
    rw [List.cons_append, fsLookup_cons, fsLookup_cons]
    by_cases hq : k = q
    · simp [hq]
    · rw [if_neg hq, if_neg hq]
      exact ih

theorem fsLookup_insert_self (fs : List (GoStr × Bytes)) (p : GoStr) (v : Bytes) :
    fsLookup (fsInsert fs p v) p = some v := by
  unfold fsInsert
  split
  · exact fsLookup_map_replace fs p v (by assumption)
  · next h =>
    apply fsLookup_append_single
    cases hl : fsLookup fs p with
    | none => rfl
    | some w => exact absurd (by rw [hl]; rfl) h

theorem fsLookup_insert_ne (fs : List (GoStr × Bytes)) (p q : GoStr) (v : Bytes)
    (h : q ≠ p) : fsLookup (fsInsert fs p v) q = fsLookup fs q := by
  unfold fsInsert
  split
  · exact fsLookup_map_replace_ne fs p q v h
  · exact fsLookup_append_single_ne fs p q v h

theorem fsLookup_remove_ne (fs : List (GoStr × Bytes)) (p q : GoStr) (h : q ≠ p) :
    fsLookup (fsRemove fs p) q = fsLookup fs q := by
  induction fs with
  | nil => rfl
  | cons kv rest ih =>
    obtain ⟨k, w⟩ := kv
    unfold fsRemove at ih ⊢
    rw [List.filter_cons]
    by_cases hk : k = p
    · rw [show (decide ¬ ((k, w) : GoStr × Bytes).1 = p) = false from by simp [hk]]
      simp only [Bool.false_eq_true, if_false]
      rw [fsLookup_cons, if_neg (fun hx : k = q => h (hx ▸ hk ▸ rfl))]
      exact ih
    · rw [show (decide ¬ ((k, w) : GoStr × Bytes).1 = p) = true from by simp [hk]]
      simp only [if_true]
      rw [fsLookup_cons, fsLookup_cons]
      by_cases hq : k = q
      · simp [hq]
      · rw [if_neg hq, if_neg hq]
        exact ih

theorem dirInsert_idem (ds : List GoStr) (d : GoStr) :
    dirInsert (dirInsert ds d) d = dirInsert ds d := by
  unfold dirInsert
  split
  · next h => simp [h]
  · next h => simp

/-! ## Helper lemmas: zone-offset bounds of every parsed time -/

theorem takeDigits_le_two (s : GoStr) (v : Nat) (r : GoStr)
    (h : takeDigits 2 s = some (v, r)) : v ≤ 99 := by
  simp only [takeDigits] at h
  split at h
  · next hcond =>
    obtain ⟨hlen, hall⟩ := hcond
    obtain ⟨a, b, hab⟩ := List.length_eq_two.1 hlen
    rw [hab] at hall h
    simp only [List.all_cons, List.all_nil, Bool.and_eq_true, isDigitC,
      decide_eq_true_eq] at hall
    obtain ⟨⟨ha1, ha2⟩, ⟨hb1, hb2⟩, -⟩ := hall
    injection h with h1
    injection h1 with hv hr
    subst hv
    simp only [List.foldl]
    omega
  · exact Option.noConfusion h

theorem parseOffsetColon_bound (s : GoStr) (off : Int) (r : GoStr)
    (h : parseOffsetColon s = some (off, r)) : off.natAbs ≤ 6039 := by
  unfold parseOffsetColon at h
  split at h
  · exact Option.noConfusion h
  next pos s1 hsign =>
    split at h
    · exact Option.noConfusion h
    next hh s2 hdig1 =>
      split at h
      · exact Option.noConfusion h
      next s3 hcol =>
        split at h
        · exact Option.noConfusion h
        next mm s4 hdig2 =>
          injection h with h1
          injection h1 with hoff hr
          subst hoff
          have b1 := takeDigits_le_two s1 hh s2 hdig1
          have b2 := takeDigits_le_two s3 mm s4 hdig2
          by_cases hp : pos <;> simp [hp] <;> omega

theorem parseOffsetPlain_bound (s : GoStr) (off : Int) (r : GoStr)
    (h : parseOffsetPlain s = some (off, r)) : off.natAbs ≤ 6039 := by
  unfold parseOffsetPlain at h
  split at h
  · exact Option.noConfusion h
  next pos s1 hsign =>
    split at h
    · exact Option.noConfusion h
    next hh s2 hdig1 =>
      split at h
      · exact Option.noConfusion h
      next mm s3 hdig2 =>
        injection h with h1
        injection h1 with hoff hr
        subst hoff
        have b1 := takeDigits_le_two s1 hh s2 hdig1
        have b2 := takeDigits_le_two s2 mm s3 hdig2
        by_cases hp : pos <;> simp [hp] <;> omega

theorem mkValidTime_offMin (y mo d h mi s : Nat) (off : Int) (t : GoTime)
    (hm : mkValidTime y mo d h mi s off = some t) : t.offMin = off := by
  unfold mkValidTime at hm
  split at hm
  · injection hm with h1
    subst h1
    rfl
  · exact Option.noConfusion hm

theorem goParseExifNaive_offMin (s : GoStr) (t : GoTime)
    (h : goParseExifNaive s = some t) : t.offMin = 0 := by
  unfold goParseExifNaive at h
  split at h
  · exact Option.noConfusion h
  next core rest hcore =>
    split at h
    · exact mkValidTime_offMin _ _ _ _ _ _ _ _ h
    · exact Option.noConfusion h

theorem goParseExifOffset_bound (s : GoStr) (t : GoTime)
    (h : goParseExifOffset s = some t) : t.offMin.natAbs ≤ 6039 := by
  unfold goParseExifOffset at h
  split at h
  · exact Option.noConfusion h
  next core rest hcore =>
    split at h
    · exact Option.noConfusion h
    next off rest2 hoff =>
      split at h
      · rw [mkValidTime_offMin _ _ _ _ _ _ _ _ h]
        exact parseOffsetColon_bound _ _ _ hoff
      · exact Option.noConfusion h

theorem goParseFnNaive_offMin (s : GoStr) (t : GoTime)
    (h : goParseFnNaive s = some t) : t.offMin = 0 := by
  unfold goParseFnNaive at h
  split at h
  · exact Option.noConfusion h
  next core rest hcore =>
    split at h
    · exact mkValidTime_offMin _ _ _ _ _ _ _ _ h
    · exact Option.noConfusion h

theorem goParseFnOffset_bound (s : GoStr) (t : GoTime)
    (h : goParseFnOffset s = some t) : t.offMin.natAbs ≤ 6039 := by
  unfold goParseFnOffset at h
  split at h
  · exact Option.noConfusion h
  next core rest hcore =>
    split at h
    · exact Option.noConfusion h
    next off rest2 hoff =>
      split at h
      · rw [mkValidTime_offMin _ _ _ _ _ _ _ _ h]
        exact parseOffsetPlain_bound _ _ _ hoff
      · exact Option.noConfusion h

theorem getExifCreationTime_bound (tags : Option (List (GoStr × GoStr)))
    (t : GoTime) (b : Bool) (h : getExifCreationTime tags = some (t, b)) :
    t.offMin.natAbs ≤ 6039 := by
  unfold getExifCreationTime at h
  match tags with
  | none => exact Option.noConfusion h
  | some entries =>
    simp only [] at h
    split at h
    · exact Option.noConfusion h
    split at h
    · rw [Option.map_eq_some'] at h
      obtain ⟨t0, hp, ht⟩ := h
      injection ht with ht1 ht2
      subst ht1
      rw [goParseExifNaive_offMin _ _ hp]
      simp
    · rw [Option.map_eq_some'] at h
      obtain ⟨t0, hp, ht⟩ := h
      injection ht with ht1 ht2
      subst ht1
      exact goParseExifOffset_bound _ _ hp

theorem parseFilenameTime_bound (ai : filenameInfo) (t : GoTime)
    (h : parseFilenameTime ai = some t) : t.offMin.natAbs ≤ 6039 := by
  unfold parseFilenameTime at h
  split at h
  · exact goParseFnOffset_bound _ _ h
  · rw [goParseFnNaive_offMin _ _ h]
    simp

theorem getPhotoCreationTime_bound (env : Env) (path : GoStr) (content : Bytes)
    (ai : filenameInfo) (t : GoTime) (tSrc : timeSrc)
    (hsane : SaneStats env)
    (h : getPhotoCreationTime env path content ai = (some t, tSrc)) :
    t.offMin.natAbs ≤ 6039 := by
  unfold getPhotoCreationTime at h
  split at h
  · next t0 haveTz heq =>
    have hb := getExifCreationTime_bound _ _ _ (by
      cases hc : couldHaveExif path with
      | true => rw [hc] at heq; simpa using heq
      | false => rw [hc] at heq; simp at heq)
    split at h <;> (injection h with h1 h2; injection h1 with h1; subst h1; exact hb)
  · split at h
    · injection h with h1 h2
      cases hp : parseFilenameTime ai with
      | none => rw [hp] at h1; exact Option.noConfusion h1
      | some t0 =>
        rw [hp] at h1
        injection h1 with h1
        subst h1
        exact parseFilenameTime_bound _ _ hp
    · injection h with h1 h2
      injection h1 with h1
      subst h1
      show (if goTimeBefore (env.statCtim path) (env.statMtim path) = true
            then env.statCtim path else env.statMtim path).offMin.natAbs ≤ 6039
      by_cases hb : goTimeBefore (env.statCtim path) (env.statMtim path) = true
      · rw [if_pos hb]
        exact le_trans (hsane path).1 (by omega)
      · rw [if_neg hb]
        exact le_trans (hsane path).2 (by omega)

/-! ## Helper lemmas: validation and media classification -/

theorem validateFile_malformed (hash : Bytes → GoStr) (path : GoStr) (content : Bytes)
    (h : (splitOnChar '-' (basenameGo path)).length < 3 ∨
         ((splitOnChar '-' (basenameGo path)).getD 1 []).length ≠ 16) :
    validateFile hash path content = some true := by
  unfold validateFile
  by_cases h3 : (splitOnChar '-' (basenameGo path)).length < 3
  · rw [if_pos h3]
  · rcases h with h | h
    · exact absurd h h3
    · rw [if_neg h3, if_pos h]

theorem suffix_through_sep (suf b : GoStr) (x : Char) :
    ∀ a : GoStr, suf <:+ a ++ x :: b → x ∉ suf → suf <:+ b := by
  intro a
  induction a with
  | nil =>
    intro hs hx
    rcases List.suffix_cons_iff.1 hs with h | h
    · exact absurd (h ▸ List.mem_cons_self x b) hx
    · exact h
  | cons c a2 ih =>
    intro hs hx
    rcases List.suffix_cons_iff.1 (by simpa using hs) with h | h
    · exfalso
      apply hx
      rw [h]
      exact List.mem_cons_of_mem c (by simp)
    · exact ih h hx

theorem isMedia_false_iff (s : GoStr) :
    isMedia s = false ↔ ".xmp".data <:+ strToLower s := by
  unfold isMedia NON_MEDIA_EXTENSIONS hasSuffixL
  simp

theorem isMedia_prepend_false (pre fn : GoStr) (h : isMedia fn = false) :
    isMedia (pre ++ fn) = false := by
  rw [isMedia_false_iff] at h ⊢
  unfold strToLower at h ⊢
  rw [List.map_append]
  exact h.trans (List.suffix_append _ _)

theorem strToLower_cons_slash (bn : GoStr) :
    strToLower ('/' :: bn) = '/' :: strToLower bn := rfl

/-- A canonically named media destination (timestamp, fingerprint, name,
joined by hyphens, placed under a directory) always validates as `true`:
with a non-negative offset the second field is the fingerprint itself, and
with a negative offset the split shifts so the second field is the 4-5
digit offset, which fails the length test and is accepted unchecked. -/
theorem validateFile_canonical (hash : Bytes → GoStr) (c : Bytes) (t : GoTime)
    (fname pre : GoStr)
    (hlen : (hash c).length = 16) (hnd : '-' ∉ hash c) (hns : '/' ∉ hash c)
    (hoff : t.offMin.natAbs ≤ 6039) (hfn : '/' ∉ fname) (hc : c ≠ []) :
    validateFile hash (pre ++ '/' :: (fmtTimestamp t ++ '-' :: (hash c ++ '-' :: fname))) c
      = some true := by
  have hnamens : '/' ∉ fmtTimestamp t ++ '-' :: (hash c ++ '-' :: fname) := by
    intro hmem
    rcases List.mem_append.1 hmem with h | h
    · exact fmtTimestamp_no_slash t h
    rcases List.mem_cons.1 h with h | h
    · exact absurd h (by decide)
    rcases List.mem_append.1 h with h | h
    · exact hns h
    rcases List.mem_cons.1 h with h | h
    · exact absurd h (by decide)
    · exact hfn h
  have hnamenn : fmtTimestamp t ++ '-' :: (hash c ++ '-' :: fname) ≠ [] := by simp
  have hbn := basenameGo_concat pre _ hnamens hnamenn
  unfold validateFile
  rw [hbn]
  by_cases hneg : t.offMin < 0
  · -- negative offset: the second hyphen field is the offset digits
    rw [fmtTimestamp_neg_split t hneg]
    have hsplit : splitOnChar '-'
        ((fmtTimestampCore t ++ '-' :: offsetDigits t) ++ '-' :: (hash c ++ '-' :: fname)) =
        fmtTimestampCore t :: offsetDigits t :: hash c :: splitOnChar '-' fname := by
      rw [List.append_assoc, List.cons_append]
      rw [splitOnChar_append '-' (fmtTimestampCore t) _ (fmtTimestampCore_no_dash t)]
      rw [splitOnChar_append '-' (offsetDigits t) _
        (fun hm => (isDigitC_ne _ (offsetDigits_digit t _ hm)).1 rfl)]
      rw [splitOnChar_append '-' (hash c) fname hnd]
    rw [hsplit]
    have hodlen := offsetDigits_length t hoff
    have hlsplit := splitOnChar_length_pos '-' fname
    rw [if_neg (by simp only [List.length_cons]; omega)]
    rw [if_pos (by simp only [List.getD_cons_succ, List.getD_cons_zero]; omega)]
  · -- non-negative offset: the second hyphen field is the fingerprint
    have hsplit : splitOnChar '-'
        (fmtTimestamp t ++ '-' :: (hash c ++ '-' :: fname)) =
        fmtTimestamp t :: hash c :: splitOnChar '-' fname := by
      rw [splitOnChar_append '-' (fmtTimestamp t) _ (fmtTimestamp_no_dash_nonneg t hneg)]
      rw [splitOnChar_append '-' (hash c) fname hnd]
    rw [hsplit]
    have hlsplit := splitOnChar_length_pos '-' fname
    rw [if_neg (by simp only [List.length_cons]; omega)]
    rw [if_neg (by simp only [List.getD_cons_succ, List.getD_cons_zero, hlen]; omega)]
    rw [if_neg (by simpa using hc)]
    simp [List.getD_cons_succ, List.getD_cons_zero]

/-! ## Helper lemmas: the Destination Namer -/

theorem getSorted_media_eq (env : Env) (path : GoStr) (content : Bytes) (base : GoStr)
    (t : GoTime) (tSrc : timeSrc)
    (hmedia : isMedia path = true) (hcontent : content ≠ [])
    (hres : getPhotoCreationTime env path content
      (getFilenameAdditionalInfo (basenameGo path)) = (some t, tSrc)) :
    getSortedDestination env path content base =
      some (base ++ natDec t.year ++ '/' :: (pad2 t.month ++ '/' ::
        (fmtTimestamp t ++ '-' :: (env.hash content ++ '-' :: pickedName path))), tSrc) := by
  simp only [getSortedDestination]
  rw [hres]
  simp [hmedia, hcontent]

theorem getSorted_nonmedia_eq (env : Env) (path : GoStr) (content : Bytes) (base : GoStr)
    (t : GoTime) (tSrc : timeSrc)
    (hmedia : isMedia path = false)
    (hres : getPhotoCreationTime env path content
      (getFilenameAdditionalInfo (basenameGo path)) = (some t, tSrc)) :
    getSortedDestination env path content base =
      some (base ++ natDec t.year ++ '/' :: (pad2 t.month ++ '/' :: basenameGo path),
        timeSrc.TIMESRC_FILENAME) := by
  simp only [getSortedDestination]
  rw [hres]
  simp [hmedia]

theorem getSorted_inv (env : Env) (path : GoStr) (content : Bytes) (base dst : GoStr)
    (tSrc : timeSrc)
    (h : getSortedDestination env path content base = some (dst, tSrc)) :
    ∃ t,
      ((isMedia path = true ∧ content ≠ [] ∧
          getPhotoCreationTime env path content
            (getFilenameAdditionalInfo (basenameGo path)) = (some t, tSrc) ∧
          dst = base ++ natDec t.year ++ '/' :: (pad2 t.month ++ '/' ::
            (fmtTimestamp t ++ '-' :: (env.hash content ++ '-' :: pickedName path)))) ∨
       (isMedia path = false ∧ tSrc = timeSrc.TIMESRC_FILENAME ∧
          (∃ ts0, getPhotoCreationTime env path content
            (getFilenameAdditionalInfo (basenameGo path)) = (some t, ts0)) ∧
          dst = base ++ natDec t.year ++ '/' :: (pad2 t.month ++ '/' :: basenameGo path))) := by
  simp only [getSortedDestination] at h
  split at h
  · exact Option.noConfusion h
  next t ts0 heq =>
    split at h
    next hmedia =>
      split at h
      · exact Option.noConfusion h
      next hcne =>
        injection h with h1
        injection h1 with hdst hts
        subst hts
        exact ⟨t, Or.inl ⟨by simpa using hmedia, hcne, heq, hdst.symm⟩⟩
    next hmedia =>
      injection h with h1
      injection h1 with hdst hts
      subst hts
      exact ⟨t, Or.inr ⟨by simpa using hmedia, rfl, ⟨ts0, heq⟩, hdst.symm⟩⟩

/-! ## Helper lemmas: the Placement Engine, one lemma per control path -/

theorem engine_none_src (env : Env) (path base : GoStr) (dryRun : Bool) (fs : FS)
    (hc : fsLookup fs.files path = none) :
    sortFileIntoDestination env path base dryRun fs = none := by
  simp [sortFileIntoDestination, hc]

theorem engine_none_namer (env : Env) (path base : GoStr) (dryRun : Bool) (fs : FS)
    (content : Bytes)
    (hc : fsLookup fs.files path = some content)
    (hg : getSortedDestination env path content base = none) :
    sortFileIntoDestination env path base dryRun fs = none := by
  simp [sortFileIntoDestination, hc, hg]

theorem engine_none_validate (env : Env) (path base : GoStr) (dryRun : Bool) (fs : FS)
    (content dc : Bytes) (dst : GoStr) (tSrc : timeSrc)
    (hc : fsLookup fs.files path = some content)
    (hg : getSortedDestination env path content base = some (dst, tSrc))
    (hd : fsLookup fs.files dst = some dc)
    (hm : isMedia dst = true)
    (hv : validateFile env.hash dst dc = none) :
    sortFileIntoDestination env path base dryRun fs = none := by
  simp [sortFileIntoDestination, hc, hg, hd, hm, hv]

theorem engine_skip (env : Env) (path base : GoStr) (dryRun : Bool) (fs : FS)
    (content dc : Bytes) (dst : GoStr) (tSrc : timeSrc)
    (hc : fsLookup fs.files path = some content)
    (hg : getSortedDestination env path content base = some (dst, tSrc))
    (hd : fsLookup fs.files dst = some dc)
    (hskip : isMedia dst = false ∨ validateFile env.hash dst dc = some true) :
    sortFileIntoDestination env path base dryRun fs =
      some (⟨fs.files, dirInsert fs.dirs (dirnameGo dst)⟩, ⟨true, false, 0, tSrc, dst⟩) := by
  rcases hskip with hm | hv
  · simp [sortFileIntoDestination, hc, hg, hd, hm]
  · by_cases hm : isMedia dst = true
    · simp [sortFileIntoDestination, hc, hg, hd, hm, hv]
    · simp only [Bool.not_eq_true] at hm
      simp [sortFileIntoDestination, hc, hg, hd, hm]

theorem engine_new (env : Env) (path base : GoStr) (fs : FS) (content : Bytes)
    (dst : GoStr) (tSrc : timeSrc)
    (hc : fsLookup fs.files path = some content)
    (hg : getSortedDestination env path content base = some (dst, tSrc))
    (hd : fsLookup fs.files dst = none) :
    sortFileIntoDestination env path base false fs =
      some (⟨fsInsert fs.files dst content, dirInsert fs.dirs (dirnameGo dst)⟩,
        ⟨false, false, content.length, tSrc, dst⟩) := by
  simp [sortFileIntoDestination, hc, hg, hd]

theorem engine_dry_new (env : Env) (path base : GoStr) (fs : FS) (content : Bytes)
    (dst : GoStr) (tSrc : timeSrc)
    (hc : fsLookup fs.files path = some content)
    (hg : getSortedDestination env path content base = some (dst, tSrc))
    (hd : fsLookup fs.files dst = none) :
    sortFileIntoDestination env path base true fs =
      some (⟨fs.files, dirInsert fs.dirs (dirnameGo dst)⟩, ⟨false, false, 0, tSrc, dst⟩) := by
  simp [sortFileIntoDestination, hc, hg, hd]

theorem engine_repair (env : Env) (path base : GoStr) (fs : FS) (content dc : Bytes)
    (dst : GoStr) (tSrc : timeSrc)
    (hc : fsLookup fs.files path = some content)
    (hg : getSortedDestination env path content base = some (dst, tSrc))
    (hd : fsLookup fs.files dst = some dc)
    (hm : isMedia dst = true)
    (hv : validateFile env.hash dst dc = some false)
    (hne : path ≠ dst) :
    sortFileIntoDestination env path base false fs =
      some (⟨fsInsert (fsRemove fs.files dst) dst content,
             dirInsert fs.dirs (dirnameGo dst)⟩,
        ⟨true, true, content.length, tSrc, dst⟩) := by
  have hl2 : fsLookup (fsRemove fs.files dst) path = some content := by
    rw [fsLookup_remove_ne _ _ _ hne]
    exact hc
  simp [sortFileIntoDestination, hc, hg, hd, hm, hv, hl2]

theorem engine_dry_repair (env : Env) (path base : GoStr) (fs : FS) (content dc : Bytes)
    (dst : GoStr) (tSrc : timeSrc)
    (hc : fsLookup fs.files path = some content)
    (hg : getSortedDestination env path content base = some (dst, tSrc))
    (hd : fsLookup fs.files dst = some dc)
    (hm : isMedia dst = true)
    (hv : validateFile env.hash dst dc = some false) :
    sortFileIntoDestination env path base true fs =
      some (⟨fsRemove fs.files dst, dirInsert fs.dirs (dirnameGo dst)⟩,
        ⟨true, true, 0, tSrc, dst⟩) := by
  simp [sortFileIntoDestination, hc, hg, hd, hm, hv]

/-! ## Helper lemmas: hash input size, directory validation -/

theorem hashInput_length (c : Bytes) :
    (hashInput c).length = MAX_HASHABLE_SIZE_IN_BYTES := by
  unfold hashInput
  simp only [List.length_append, List.length_take, List.length_replicate]
  omega

theorem stripSlashes_append_slash (a : GoStr) :
    stripSlashes (a ++ ['/']) = stripSlashes a := by
  unfold stripSlashes
  rw [List.reverse_append]
  simp [List.dropWhile_cons]

theorem stripSlashes_length_le (p : GoStr) : (stripSlashes p).length ≤ p.length := by
  unfold stripSlashes
  rw [List.length_reverse]
  calc (p.reverse.dropWhile (fun c => c = '/')).length
      ≤ p.reverse.length := (List.dropWhile_suffix _).sublist.length_le
    _ = p.length := List.length_reverse p

theorem validateDir_nondir (env : Env) (dirPath : GoStr)
    (h : env.node (stripSlashes dirPath) = some false) :
    validateDir env dirPath = none := by
  have key : ∀ p : GoStr, stripSlashes p = stripSlashes dirPath →
      (stripSlashes p).length < p.length → goStat env.node p = none := by
    intro p hstrip hlen
    have hne : p ≠ stripSlashes dirPath := by
      intro hx
      rw [← hstrip] at hx
      rw [← hx] at hlen
      omega
    simp only [goStat]
    rw [hstrip, h]
    simp [hne]
  simp only [validateDir]
  by_cases hs : hasSuffixL dirPath ['/'] = true
  · rw [if_pos hs]
    obtain ⟨pre, hpre⟩ : ∃ pre, dirPath = pre ++ ['/'] := by
      unfold hasSuffixL at hs
      obtain ⟨pre, hpre⟩ := of_decide_eq_true hs
      exact ⟨pre, hpre.symm⟩
    rw [key dirPath rfl ?_]
    rw [hpre, stripSlashes_append_slash]
    calc (stripSlashes pre).length ≤ pre.length := stripSlashes_length_le pre
      _ < (pre ++ ['/']).length := by simp
  · rw [if_neg hs]
    rw [key (dirPath ++ ['/']) (stripSlashes_append_slash dirPath) ?_]
    rw [stripSlashes_append_slash]
    calc (stripSlashes dirPath).length ≤ dirPath.length := stripSlashes_length_le dirPath
      _ < (dirPath ++ ['/']).length := by simp

/-- C9: a supplied source or destination base path that exists but is not a
directory makes the run abort before any file is processed.  The abort
happens because `os.Stat` is called on the slash-suffixed path, which fails
with `ENOTDIR` for a non-directory and panics; the explicit `IsDir`
diagnostic built with `fmt.Errorf` is itself discarded. -/
theorem nondir_base_aborts (env : Env) (srcDirArg dstDirArg : GoStr)
    (files : List GoStr) (dryRun : Bool) (fs : FS)
    (h : env.node (stripSlashes srcDirArg) = some false ∨
         env.node (stripSlashes dstDirArg) = some false) :
    runPipeline env srcDirArg dstDirArg files dryRun fs = none := by
  unfold runPipeline
  rcases h with h | h
  · rw [validateDir_nondir env srcDirArg h]
  · cases hv : validateDir env srcDirArg with
    | none => rfl
    | some sd =>
      rw [validateDir_nondir env dstDirArg h]

/-- Witness for `nondir_base_aborts`: with `f.txt` an existing regular
file supplied as the destination base, the whole run aborts. -/
theorem nondir_base_aborts_witness :
    envNotDir.node (stripSlashes "f.txt".data) = some false ∧
    runPipeline envNotDir "s".data "f.txt".data [srcJpg] false fsOne = none :=
  ⟨by decide, nondir_base_aborts envNotDir "s".data "f.txt".data [srcJpg] false fsOne
    (Or.inr (by decide))⟩

/-- C1: `getPhotoHash` does NOT hash exactly the first
`min(size, 10485760)` bytes.  For the one-byte file `[0x61]` the buffer
fed to xxHash64 is the byte followed by 10485759 zero bytes (the whole
read buffer, `nBytesRead` being ignored), not the file's own single byte
as the specification states. -/
theorem getPhotoHash_hashes_padded_buffer :
    getPhotoHash [97] = some (hex16 (xxhash64 (hashInput [97])))
  ∧ (hashInput [97]).length = 10485760
  ∧ specHashInput [97] = [97]
  ∧ hashInput [97] ≠ specHashInput [97] := by
  refine ⟨by simp [getPhotoHash], by rw [hashInput_length]; rfl, by decide, ?_⟩
  intro heq
  have hlen := congrArg List.length heq
  rw [hashInput_length] at hlen
  have h2 : (specHashInput [97]).length = 1 := by decide
  rw [h2] at hlen
  exact absurd hlen (by decide)

/-- C6 (amended): an existing destination whose basename does not split on
`-` into at least 3 fields with a 16-character second field is treated as
VALID: `validateFile` builds an error value with `fmt.Errorf`, discards
it, and returns `true`, so the run continues instead of aborting. -/
theorem malformed_name_treated_valid (hash : Bytes → GoStr) (path : GoStr)
    (content : Bytes)
    (h : (splitOnChar '-' (basenameGo path)).length < 3 ∨
         ((splitOnChar '-' (basenameGo path)).getD 1 []).length ≠ 16) :
    validateFile hash path content = some true :=
  validateFile_malformed hash path content h

/-- Witness for `malformed_name_treated_valid` at the name `a-b-c.jpg`. -/
theorem malformed_name_treated_valid_witness :
    ((splitOnChar '-' (basenameGo "a-b-c.jpg".data)).getD 1 []).length ≠ 16 ∧
    validateFile envCtime.hash "a-b-c.jpg".data [1] = some true :=
  ⟨by decide, malformed_name_treated_valid envCtime.hash "a-b-c.jpg".data [1]
    (Or.inr (by decide))⟩

/-- C6 counterexample: an existing media destination whose basename's
second hyphen field has length 4 rather than 16 (as happens for every
canonical name with a negative UTC offset) does NOT abort the run: the
engine returns normally, reports the entry as existing and valid, and
moves on. -/
theorem malformed_name_does_not_abort :
    sortFileIntoDestination envNeg8 srcJpg "d/".data false fsNeg8 =
      some (⟨fsNeg8.files, ["d/2020/08".data]⟩,
        ⟨true, false, 0, timeSrc.TIMESRC_EXIF, dstNeg8⟩)
  ∧ ((splitOnChar '-' (basenameGo dstNeg8)).getD 1 []).length = 4 := by
  constructor <;> decide

/-- C3: the Timestamp Resolver's precedence.  (1) EXIF-capable extension
with date-taken and offset tags parsing: source `exif`.  (2) Only the
date-taken tag: source `exif_no_tz`.  (3) Otherwise, a recognized legacy
filename: the reconstructed time, source `filename`.  (4) Otherwise the
earlier of the stat change/modification times, source `ctime`. -/
theorem getPhotoCreationTime_precedence (env : Env) (path : GoStr)
    (content : Bytes) (ai : filenameInfo) :
    (∀ t, couldHaveExif path = true →
        getExifCreationTime (env.exifTags content) = some (t, true) →
        getPhotoCreationTime env path content ai = (some t, timeSrc.TIMESRC_EXIF))
  ∧ (∀ t, couldHaveExif path = true →
        getExifCreationTime (env.exifTags content) = some (t, false) →
        getPhotoCreationTime env path content ai = (some t, timeSrc.TIMESRC_EXIF_NO_TZ))
  ∧ ((couldHaveExif path = false ∨ getExifCreationTime (env.exifTags content) = none) →
        ai.origFilename ≠ [] →
        getPhotoCreationTime env path content ai =
          (parseFilenameTime ai, timeSrc.TIMESRC_FILENAME))
  ∧ ((couldHaveExif path = false ∨ getExifCreationTime (env.exifTags content) = none) →
        ai.origFilename = [] →
        getPhotoCreationTime env path content ai =
          (some (if goTimeBefore (env.statCtim path) (env.statMtim path)
                 then env.statCtim path else env.statMtim path),
           timeSrc.TIMESRC_CTIME)) := by
  refine ⟨?_, ?_, ?_, ?_⟩
  · intro t hcould hexif
    simp [getPhotoCreationTime, hcould, hexif]
  · intro t hcould hexif
    simp [getPhotoCreationTime, hcould, hexif]
  · intro hno horig
    have hnone : (if couldHaveExif path = true
        then getExifCreationTime (env.exifTags content) else none) = none := by
      rcases hno with h | h
      · simp [h]
      · simp [h]
    simp [getPhotoCreationTime, hnone, horig]
  · intro hno horig
    have hnone : (if couldHaveExif path = true
        then getExifCreationTime (env.exifTags content) else none) = none := by
      rcases hno with h | h
      · simp [h]
      · simp [h]
    simp [getPhotoCreationTime, hnone, horig, getFileCtime]

/-- Witness for `getPhotoCreationTime_precedence`: the EXIF tier on a
tagged JPEG and the ctime tier on a video without EXIF data. -/
theorem getPhotoCreationTime_precedence_witness :
    getPhotoCreationTime envSpec "s/a.jpg".data [5] {} =
      (some ⟨2020, 8, 27, 11, 0, 0, 0, 60⟩, timeSrc.TIMESRC_EXIF)
  ∧ getPhotoCreationTime envCtime "v/MOV.MP4".data [5] {} =
      (some ⟨2021, 1, 2, 3, 4, 5, 0, 0⟩, timeSrc.TIMESRC_CTIME) := by
  constructor
  · exact (getPhotoCreationTime_precedence envSpec "s/a.jpg".data [5] {}).1
      ⟨2020, 8, 27, 11, 0, 0, 0, 60⟩ (by decide) (by decide)
  · have h := (getPhotoCreationTime_precedence envCtime "v/MOV.MP4".data [5] {}).2.2.2
      (Or.inl (by decide)) (by decide)
    rw [h]
    decide

/-- C8: for a non-media (sidecar) file the Destination Namer omits the
fingerprint entirely and keeps the on-disk base name unchanged:
`<base>/<year>/<2-digit month>/<name>`. -/
theorem nonmedia_destination_format (env : Env) (path : GoStr) (content : Bytes)
    (base : GoStr) (t : GoTime) (tSrc : timeSrc)
    (hmedia : isMedia path = false)
    (hres : getPhotoCreationTime env path content
      (getFilenameAdditionalInfo (basenameGo path)) = (some t, tSrc)) :
    getSortedDestination env path content base =
      some (base ++ natDec t.year ++ '/' :: (pad2 t.month ++ '/' :: basenameGo path),
        timeSrc.TIMESRC_FILENAME) :=
  getSorted_nonmedia_eq env path content base t tSrc hmedia hres

/-- Witness for `nonmedia_destination_format` at `s/DSCF0033.JPG.xmp`. -/
theorem nonmedia_destination_format_witness :
    getSortedDestination envCtime "s/DSCF0033.JPG.xmp".data [1, 2, 3] "d/".data =
      some ("d/2021/01/DSCF0033.JPG.xmp".data, timeSrc.TIMESRC_FILENAME) := by
  have h := nonmedia_destination_format envCtime "s/DSCF0033.JPG.xmp".data [1, 2, 3]
    "d/".data ⟨2021, 1, 2, 3, 4, 5, 0, 0⟩ timeSrc.TIMESRC_CTIME (by decide) (by decide)
  rw [h]
  decide

/-! ## Helper lemmas: complete case analysis of one engine step -/

theorem fsLookup_remove_self (fs : List (GoStr × Bytes)) (p : GoStr) :
    fsLookup (fsRemove fs p) p = none := by
  induction fs with
  | nil => rfl
  | cons kv rest ih =>
    obtain ⟨k, w⟩ := kv
    unfold fsRemove at ih ⊢
    rw [List.filter_cons]
    by_cases hk : k = p
    · rw [show (decide ¬ ((k, w) : GoStr × Bytes).1 = p) = false from by simp [hk]]
      simp only [Bool.false_eq_true, if_false]
      exact ih
    · rw [show (decide ¬ ((k, w) : GoStr × Bytes).1 = p) = true from by simp [hk]]
      simp only [if_true]
      rw [fsLookup_cons, if_neg hk]
      exact ih

theorem engine_repair_self_none (env : Env) (base : GoStr) (fs : FS)
    (content : Bytes) (dst : GoStr) (tSrc : timeSrc)
    (hc : fsLookup fs.files dst = some content)
    (hg : getSortedDestination env dst content base = some (dst, tSrc))
    (hm : isMedia dst = true)
    (hv : validateFile env.hash dst content = some false) :
    sortFileIntoDestination env dst base false fs = none := by
  have hl2 : fsLookup (fsRemove fs.files dst) dst = none := fsLookup_remove_self fs.files dst
  simp [sortFileIntoDestination, hc, hg, hm, hv, hl2]

/-- Complete characterisation of a successful engine step: the source was
readable, the destination path was computed, the destination directory was
(idempotently) created, and exactly one of three things happened -- a new
copy, a skip of a valid-or-unverifiable existing entry, or a
delete-then-copy repair (delete-only under dry-run). -/
theorem engine_cases (env : Env) (path base : GoStr) (dryRun : Bool) (fs fs2 : FS)
    (r : Report)
    (h : sortFileIntoDestination env path base dryRun fs = some (fs2, r)) :
    ∃ content, fsLookup fs.files path = some content ∧
      getSortedDestination env path content base = some (r.dstPath, r.tSrc) ∧
      fs2.dirs = dirInsert fs.dirs (dirnameGo r.dstPath) ∧
      ((fsLookup fs.files r.dstPath = none ∧
          r.doesDestExist = false ∧ r.isDestInvalid = false ∧
          ((dryRun = true ∧ fs2.files = fs.files ∧ r.bytesCopied = 0) ∨
           (dryRun = false ∧ fs2.files = fsInsert fs.files r.dstPath content ∧
             r.bytesCopied = content.length))) ∨
       (∃ dc, fsLookup fs.files r.dstPath = some dc ∧
          (isMedia r.dstPath = false ∨ validateFile env.hash r.dstPath dc = some true) ∧
          r.doesDestExist = true ∧ r.isDestInvalid = false ∧
          fs2.files = fs.files ∧ r.bytesCopied = 0) ∨
       (∃ dc, fsLookup fs.files r.dstPath = some dc ∧
          isMedia r.dstPath = true ∧ validateFile env.hash r.dstPath dc = some false ∧
          r.doesDestExist = true ∧ r.isDestInvalid = true ∧
          ((dryRun = true ∧ fs2.files = fsRemove fs.files r.dstPath ∧ r.bytesCopied = 0) ∨
           (dryRun = false ∧ path ≠ r.dstPath ∧
             fs2.files = fsInsert (fsRemove fs.files r.dstPath) r.dstPath content ∧
             r.bytesCopied = content.length)))) := by
  cases hc : fsLookup fs.files path with
  | none =>
    rw [engine_none_src env path base dryRun fs hc] at h
    exact Option.noConfusion h
  | some content =>
  cases hg : getSortedDestination env path content base with
  | none =>
    rw [engine_none_namer env path base dryRun fs content hc hg] at h
    exact Option.noConfusion h
  | some pr =>
  obtain ⟨dst, tSrc⟩ := pr
  cases hd : fsLookup fs.files dst with
  | none =>
    cases dryRun with
    | true =>
      rw [engine_dry_new env path base fs content dst tSrc hc hg hd] at h
      injection h with h1
      injection h1 with hfs hr
      subst hfs hr
      exact ⟨content, rfl, hg, rfl, Or.inl ⟨hd, rfl, rfl, Or.inl ⟨rfl, rfl, rfl⟩⟩⟩
    | false =>
      rw [engine_new env path base fs content dst tSrc hc hg hd] at h
      injection h with h1
      injection h1 with hfs hr
      subst hfs hr
      exact ⟨content, rfl, hg, rfl, Or.inl ⟨hd, rfl, rfl, Or.inr ⟨rfl, rfl, rfl⟩⟩⟩
  | some dc =>
    by_cases hm : isMedia dst = true
    · cases hv : validateFile env.hash dst dc with
      | none =>
        rw [engine_none_validate env path base dryRun fs content dc dst tSrc hc hg hd hm hv] at h
        exact Option.noConfusion h
      | some ok =>
        cases ok with
        | true =>
          rw [engine_skip env path base dryRun fs content dc dst tSrc hc hg hd (Or.inr hv)] at h
          injection h with h1
          injection h1 with hfs hr
          subst hfs hr
          exact ⟨content, rfl, hg, rfl, Or.inr (Or.inl ⟨dc, hd, Or.inr hv, rfl, rfl, rfl, rfl⟩)⟩
        | false =>
          cases dryRun with
          | true =>
            rw [engine_dry_repair env path base fs content dc dst tSrc hc hg hd hm hv] at h
            injection h with h1
            injection h1 with hfs hr
            subst hfs hr
            exact ⟨content, rfl, hg, rfl,
              Or.inr (Or.inr ⟨dc, hd, hm, hv, rfl, rfl, Or.inl ⟨rfl, rfl, rfl⟩⟩)⟩
          | false =>
            by_cases hpd : path = dst
            · subst hpd
              have hcd : content = dc := Option.some.inj (hc.symm.trans hd)
              subst hcd
              rw [engine_repair_self_none env base fs content path tSrc hc hg hm hv] at h
              exact Option.noConfusion h
            · rw [engine_repair env path base fs content dc dst tSrc hc hg hd hm hv hpd] at h
              injection h with h1
              injection h1 with hfs hr
              subst hfs hr
              exact ⟨content, rfl, hg, rfl,
                Or.inr (Or.inr ⟨dc, hd, hm, hv, rfl, rfl, Or.inr ⟨rfl, hpd, rfl, rfl⟩⟩)⟩
    · have hm2 : isMedia dst = false := by simpa using hm
      rw [engine_skip env path base dryRun fs content dc dst tSrc hc hg hd (Or.inl hm2)] at h
      injection h with h1
      injection h1 with hfs hr
      subst hfs hr
      exact ⟨content, rfl, hg, rfl, Or.inr (Or.inl ⟨dc, hd, Or.inl hm2, rfl, rfl, rfl, rfl⟩)⟩

/-! ## Claims about the Destination Namer's media format (C7) -/

/-- C7 counterexample: for a file whose EXIF data has a date-taken tag but
no UTC-offset tag (resolved as `exif_no_tz`, i.e. no offset is known), the
timestamp component still carries the `+0000` offset suffix; the claim's
suffix-free form is a different string. -/
theorem notz_destination_has_offset_suffix :
    getSortedDestination envNoTz srcJpg [1, 2, 3] "d/".data =
      some ("d/2021/01/2021.01.01_05.23.11+0000-0123456789abcdef-IMG.JPG".data,
        timeSrc.TIMESRC_EXIF_NO_TZ)
  ∧ "d/2021/01/2021.01.01_05.23.11+0000-0123456789abcdef-IMG.JPG".data ≠
    "d/2021/01/2021.01.01_05.23.11-0123456789abcdef-IMG.JPG".data := by
  constructor <;> decide

/-- C7 (amended): for every media file the destination is
`<base>/<year>/<2-digit month>/<timestamp>-<fingerprint>-<name>` where the
timestamp component `YYYY.MM.DD_hh.mm.ss` is ALWAYS suffixed with a signed
UTC offset of at least four digits (zero for naive times), whether or not
an offset is known; the year directory component is printed unpadded. -/
theorem media_destination_format (env : Env) (path : GoStr) (content : Bytes)
    (base : GoStr) (t : GoTime) (tSrc : timeSrc)
    (hmedia : isMedia path = true) (hcontent : content ≠ [])
    (hres : getPhotoCreationTime env path content
      (getFilenameAdditionalInfo (basenameGo path)) = (some t, tSrc)) :
    getSortedDestination env path content base =
      some (base ++ natDec t.year ++ '/' :: (pad2 t.month ++ '/' ::
        (fmtTimestamp t ++ '-' :: (env.hash content ++ '-' :: pickedName path))), tSrc)
  ∧ fmtTimestamp t =
      fmtTimestampCore t ++ (if t.offMin < 0 then '-' else '+') :: offsetDigits t
  ∧ 4 ≤ (offsetDigits t).length
  ∧ (∀ c ∈ offsetDigits t, isDigitC c = true) := by
  refine ⟨getSorted_media_eq env path content base t tSrc hmedia hcontent hres, rfl,
    ?_, offsetDigits_digit t⟩
  unfold offsetDigits
  have h1 := pad2_length_ge (t.offMin.natAbs / 60)
  have h2 := pad2_length_ge (t.offMin.natAbs % 60)
  simp only [List.length_append]
  omega

/-- Witness for `media_destination_format`: the specification's worked
example (2020-08-27 11:00:00+01:00, fingerprint `b46976ab6907346a`,
basename `DSCF1234.JPG`, base `/Pictures/`). -/
theorem media_destination_format_witness :
    getSortedDestination envSpec "src/DSCF1234.JPG".data [1, 2, 3] "/Pictures/".data =
      some ("/Pictures/2020/08/2020.08.27_11.00.00+0100-b46976ab6907346a-DSCF1234.JPG".data,
        timeSrc.TIMESRC_EXIF) := by
  have h := (media_destination_format envSpec "src/DSCF1234.JPG".data [1, 2, 3]
    "/Pictures/".data ⟨2020, 8, 27, 11, 0, 0, 0, 60⟩ timeSrc.TIMESRC_EXIF
    (by decide) (by decide) (by decide)).1
  rw [h]
  decide

/-! ## Claims about dry-run behaviour (C4) -/

/-- C4 counterexample: with dry-run set and an existing media destination
whose embedded fingerprint mismatches, the engine still DELETES the stale
entry (`os.Remove` is not guarded by `dryRun`): the destination file
present before the run is gone afterwards, although no bytes were
copied. -/
theorem dryrun_deletes_invalid_destination :
    fsLookup fsDry.files dstCtime = some [9]
  ∧ sortFileIntoDestination envDry srcJpg "d/".data true fsDry =
      some (⟨[(srcJpg, [1, 2, 3])], ["d/2021/01".data]⟩,
        ⟨true, true, 0, timeSrc.TIMESRC_CTIME, dstCtime⟩) := by
  constructor <;> decide

/-- C4 (amended): with dry-run set the engine copies no bytes and adds no
file entry; its only mutations are directory creation and the deletion of
an existing media destination that fails validation. -/
theorem dryrun_only_deletes (env : Env) (path base : GoStr) (fs fs2 : FS) (r : Report)
    (h : sortFileIntoDestination env path base true fs = some (fs2, r)) :
    r.bytesCopied = 0
  ∧ fs2.dirs = dirInsert fs.dirs (dirnameGo r.dstPath)
  ∧ fs2.files = (if r.isDestInvalid = true then fsRemove fs.files r.dstPath
                 else fs.files) := by
  obtain ⟨content, hc, hg, hdirs, hcase⟩ := engine_cases env path base true fs fs2 r h
  refine ⟨?_, hdirs, ?_⟩
  · rcases hcase with ⟨hd, hex, hinv, ⟨hdry, hfiles, hbytes⟩ | ⟨hwet, hfiles, hbytes⟩⟩ |
      ⟨dc, hd, hskip, hex, hinv, hfiles, hbytes⟩ |
      ⟨dc, hd, hm, hv, hex, hinv, ⟨hdry, hfiles, hbytes⟩ | ⟨hwet, hne, hfiles, hbytes⟩⟩
    · exact hbytes
    · exact absurd hwet (by simp)
    · exact hbytes
    · exact hbytes
    · exact absurd hwet (by simp)
  · rcases hcase with ⟨hd, hex, hinv, ⟨hdry, hfiles, hbytes⟩ | ⟨hwet, hfiles, hbytes⟩⟩ |
      ⟨dc, hd, hskip, hex, hinv, hfiles, hbytes⟩ |
      ⟨dc, hd, hm, hv, hex, hinv, ⟨hdry, hfiles, hbytes⟩ | ⟨hwet, hne, hfiles, hbytes⟩⟩
    · rw [hinv, hfiles]
      simp
    · exact absurd hwet (by simp)
    · rw [hinv, hfiles]
      simp
    · rw [hinv, hfiles]
      simp
    · exact absurd hwet (by simp)

/-- Witness for `dryrun_only_deletes` at the `envDry` scenario. -/
theorem dryrun_only_deletes_witness :
    (⟨true, true, 0, timeSrc.TIMESRC_CTIME, dstCtime⟩ : Report).bytesCopied = 0
  ∧ (⟨[(srcJpg, [1, 2, 3])], ["d/2021/01".data]⟩ : FS).dirs =
      dirInsert fsDry.dirs
        (dirnameGo (⟨true, true, 0, timeSrc.TIMESRC_CTIME, dstCtime⟩ : Report).dstPath)
  ∧ (⟨[(srcJpg, [1, 2, 3])], ["d/2021/01".data]⟩ : FS).files =
      (if (⟨true, true, 0, timeSrc.TIMESRC_CTIME, dstCtime⟩ : Report).isDestInvalid = true
       then fsRemove fsDry.files
         (⟨true, true, 0, timeSrc.TIMESRC_CTIME, dstCtime⟩ : Report).dstPath
       else fsDry.files) :=
  dryrun_only_deletes envDry srcJpg "d/".data fsDry
    ⟨[(srcJpg, [1, 2, 3])], ["d/2021/01".data]⟩
    ⟨true, true, 0, timeSrc.TIMESRC_CTIME, dstCtime⟩ (by decide)

/-! ## Claims about destination validation (C5, C10) -/

/-- C5 counterexample: an existing media destination whose basename's
second hyphen field (here the negative-offset digits `0500`) is NOT equal
to the recomputed fingerprint of its own bytes, yet the engine reports it
as valid, deletes nothing and copies nothing -- contradicting the claim
that every such destination is flagged invalid and repaired. -/
theorem secondfield_mismatch_not_flagged :
    (splitOnChar '-' (basenameGo dstNeg5)).getD 1 [] ≠ envNeg5.hash [9, 9]
  ∧ sortFileIntoDestination envNeg5 srcJpg "d/".data false fsNeg5 =
      some (⟨fsNeg5.files, ["d/2020/08".data]⟩,
        ⟨true, false, 0, timeSrc.TIMESRC_EXIF, dstNeg5⟩) := by
  constructor <;> decide

/-- C5 (amended): an existing media destination whose basename splits on
`-` into at least 3 fields with a SIXTEEN-character second field that
differs from the recomputed fingerprint of its bytes is flagged invalid
and, outside dry-run, deleted and then rewritten from the source. -/
theorem invalid_destination_repaired (env : Env) (path base : GoStr) (fs fs2 : FS)
    (r : Report) (dc src : Bytes)
    (hsrc : fsLookup fs.files path = some src)
    (h : sortFileIntoDestination env path base false fs = some (fs2, r))
    (hdst : fsLookup fs.files r.dstPath = some dc)
    (hmedia : isMedia r.dstPath = true)
    (hparts : ¬ (splitOnChar '-' (basenameGo r.dstPath)).length < 3)
    (hflen : ((splitOnChar '-' (basenameGo r.dstPath)).getD 1 []).length = 16)
    (hdc : dc ≠ [])
    (hmismatch : (splitOnChar '-' (basenameGo r.dstPath)).getD 1 [] ≠ env.hash dc) :
    r.isDestInvalid = true ∧ r.doesDestExist = true ∧ r.bytesCopied = src.length
  ∧ fs2.files = fsInsert (fsRemove fs.files r.dstPath) r.dstPath src
  ∧ fsLookup fs2.files r.dstPath = some src := by
  have hval : validateFile env.hash r.dstPath dc = some false := by
    unfold validateFile
    rw [if_neg hparts, if_neg (by omega), if_neg (by simpa using hdc)]
    rw [decide_eq_false hmismatch]
  obtain ⟨content, hc, hg, hdirs, hcase⟩ := engine_cases env path base false fs fs2 r h
  have hcs : content = src := Option.some.inj (hc.symm.trans hsrc)
  subst hcs
  rcases hcase with ⟨hd, hex, hinv, ⟨hdry, hfiles, hbytes⟩ | ⟨hwet, hfiles, hbytes⟩⟩ |
      ⟨dc2, hd, hskip, hex, hinv, hfiles, hbytes⟩ |
      ⟨dc2, hd, hm, hv, hex, hinv, ⟨hdry, hfiles, hbytes⟩ | ⟨hwet, hne, hfiles, hbytes⟩⟩
  · exact absurd (hd.symm.trans hdst) (by simp)
  · exact absurd (hd.symm.trans hdst) (by simp)
  · obtain rfl : dc2 = dc := Option.some.inj (hd.symm.trans hdst)
    rcases hskip with hmf | hvt
    · exact absurd (hmedia.symm.trans hmf) (by simp)
    · exact absurd (hval.symm.trans hvt) (by simp)
  · exact absurd hdry (by simp)
  · obtain rfl : dc2 = dc := Option.some.inj (hd.symm.trans hdst)
    refine ⟨hinv, hex, hbytes, hfiles, ?_⟩
    rw [hfiles]
    exact fsLookup_insert_self _ _ _

/-- Witness for `invalid_destination_repaired`: the stale one-byte entry
at `dstCtime` is deleted and replaced by the three source bytes. -/
theorem invalid_destination_repaired_witness :
    (⟨true, true, 3, timeSrc.TIMESRC_CTIME, dstCtime⟩ : Report).isDestInvalid = true
  ∧ (⟨true, true, 3, timeSrc.TIMESRC_CTIME, dstCtime⟩ : Report).doesDestExist = true
  ∧ (⟨true, true, 3, timeSrc.TIMESRC_CTIME, dstCtime⟩ : Report).bytesCopied =
      List.length [1, 2, 3]
  ∧ (⟨[(srcJpg, [1, 2, 3]), (dstCtime, [1, 2, 3])], ["d/2021/01".data]⟩ : FS).files =
      fsInsert (fsRemove fsDry.files
          (⟨true, true, 3, timeSrc.TIMESRC_CTIME, dstCtime⟩ : Report).dstPath)
        (⟨true, true, 3, timeSrc.TIMESRC_CTIME, dstCtime⟩ : Report).dstPath [1, 2, 3]
  ∧ fsLookup (⟨[(srcJpg, [1, 2, 3]), (dstCtime, [1, 2, 3])],
        ["d/2021/01".data]⟩ : FS).files
      (⟨true, true, 3, timeSrc.TIMESRC_CTIME, dstCtime⟩ : Report).dstPath =
        some [1, 2, 3] :=
  invalid_destination_repaired envDry srcJpg "d/".data fsDry
    ⟨[(srcJpg, [1, 2, 3]), (dstCtime, [1, 2, 3])], ["d/2021/01".data]⟩
    ⟨true, true, 3, timeSrc.TIMESRC_CTIME, dstCtime⟩ [9] [1, 2, 3]
    (by decide) (by decide) (by decide) (by decide) (by decide) (by decide)
    (by decide) (by decide)

/-- C10: an existing media destination whose basename splits on `-` into
at least 3 fields but whose second field is not 16 characters long (the
case for every canonical name with a negative UTC offset, whose hyphen
shifts the split) is reported VALID by `validateFile`; the engine always
skips it -- never flagging it invalid, deleting it or rewriting it -- so
its integrity is never actually checked. -/
theorem unchecked_secondfield_always_skipped (env : Env) (path base : GoStr)
    (dryRun : Bool) (fs fs2 : FS) (r : Report) (dc : Bytes)
    (h : sortFileIntoDestination env path base dryRun fs = some (fs2, r))
    (hdst : fsLookup fs.files r.dstPath = some dc)
    (hmedia : isMedia r.dstPath = true)
    (hparts : ¬ (splitOnChar '-' (basenameGo r.dstPath)).length < 3)
    (hflen : ((splitOnChar '-' (basenameGo r.dstPath)).getD 1 []).length ≠ 16) :
    validateFile env.hash r.dstPath dc = some true
  ∧ r.isDestInvalid = false ∧ r.doesDestExist = true ∧ r.bytesCopied = 0
  ∧ fs2.files = fs.files := by
  have hval : validateFile env.hash r.dstPath dc = some true :=
    validateFile_malformed _ _ _ (Or.inr hflen)
  obtain ⟨content, hc, hg, hdirs, hcase⟩ := engine_cases env path base dryRun fs fs2 r h
  rcases hcase with ⟨hd, hex, hinv, ⟨hdry, hfiles, hbytes⟩ | ⟨hwet, hfiles, hbytes⟩⟩ |
      ⟨dc2, hd, hskip, hex, hinv, hfiles, hbytes⟩ |
      ⟨dc2, hd, hm, hv, hex, hinv, ⟨hdry, hfiles, hbytes⟩ | ⟨hwet, hne, hfiles, hbytes⟩⟩
  · exact absurd (hd.symm.trans hdst) (by simp)
  · exact absurd (hd.symm.trans hdst) (by simp)
  · exact ⟨hval, hinv, hex, hbytes, hfiles⟩
  · obtain rfl : dc2 = dc := Option.some.inj (hd.symm.trans hdst)
    exact absurd (hval.symm.trans hv) (by simp)
  · obtain rfl : dc2 = dc := Option.some.inj (hd.symm.trans hdst)
    exact absurd (hval.symm.trans hv) (by simp)

/-- Witness for `unchecked_secondfield_always_skipped`: a canonically
named destination with offset -03:00 and content that does not match its
embedded fingerprint is nonetheless skipped untouched. -/
theorem unchecked_secondfield_always_skipped_witness :
    validateFile envNeg3.hash
      (⟨true, false, 0, timeSrc.TIMESRC_EXIF, dstNeg3⟩ : Report).dstPath [9, 9] = some true
  ∧ (⟨true, false, 0, timeSrc.TIMESRC_EXIF, dstNeg3⟩ : Report).isDestInvalid = false
  ∧ (⟨true, false, 0, timeSrc.TIMESRC_EXIF, dstNeg3⟩ : Report).doesDestExist = true
  ∧ (⟨true, false, 0, timeSrc.TIMESRC_EXIF, dstNeg3⟩ : Report).bytesCopied = 0
  ∧ (⟨fsNeg3.files, ["d/2020/08".data]⟩ : FS).files = fsNeg3.files :=
  unchecked_secondfield_always_skipped envNeg3 srcJpg "d/".data false fsNeg3
    ⟨fsNeg3.files, ["d/2020/08".data]⟩
    ⟨true, false, 0, timeSrc.TIMESRC_EXIF, dstNeg3⟩ [9, 9]
    (by decide) (by decide) (by decide) (by decide) (by decide)

/-! ## The real fingerprinter satisfies `GoodHash`'s shape conditions -/

theorem hexDigitChar_safe : ∀ m < 16, hexDigitChar m ≠ '-' ∧ hexDigitChar m ≠ '/' := by
  decide

theorem hex16_length (n : Nat) : (hex16 n).length = 16 := by
  simp [hex16]

theorem hex16_mem (n : Nat) (c : Char) (hc : c ∈ hex16 n) : c ≠ '-' ∧ c ≠ '/' := by
  simp only [hex16, List.mem_map, List.mem_range] at hc
  obtain ⟨i, hi, rfl⟩ := hc
  exact hexDigitChar_safe _ (Nat.mod_lt _ (by norm_num))

/-- Any string `getPhotoHash` actually returns is sixteen lowercase hex
digits, hence hyphen-free and slash-free: the `GoodHash` side condition
used throughout is true of the real fingerprinter. -/
theorem getPhotoHash_good (content : Bytes) (h : GoStr)
    (hg : getPhotoHash content = some h) :
    h.length = 16 ∧ '-' ∉ h ∧ '/' ∉ h := by
  unfold getPhotoHash at hg
  split at hg
  · exact Option.noConfusion hg
  · injection hg with hh
    subst hh
    refine ⟨hex16_length _, ?_, ?_⟩
    · intro hm
      exact (hex16_mem _ _ hm).1 rfl
    · intro hm
      exact (hex16_mem _ _ hm).2 rfl

/-! ## Second-run idempotence (C2) -/

theorem append_shuffle (a b c n : GoStr) :
    a ++ b ++ '/' :: (c ++ '/' :: n) = (a ++ b ++ '/' :: c) ++ '/' :: n := by
  simp

theorem append_shuffle2 (a b c n : GoStr) :
    a ++ b ++ '/' :: (c ++ '/' :: n) = (a ++ b ++ '/' :: (c ++ ['/'])) ++ n := by
  simp

theorem isMedia_basename_false (path pre2 : GoStr)
    (hpath : path = pre2 ++ '/' :: basenameGo path)
    (hmp : isMedia path = false) : isMedia (basenameGo path) = false := by
  rw [isMedia_false_iff] at hmp ⊢
  rw [hpath] at hmp
  have hsplit2 : strToLower (pre2 ++ '/' :: basenameGo path) =
      strToLower pre2 ++ '/' :: strToLower (basenameGo path) := by
    unfold strToLower
    rw [List.map_append, List.map_cons]
    rfl
  rw [hsplit2] at hmp
  exact suffix_through_sep ".xmp".data (strToLower (basenameGo path)) '/'
    (strToLower pre2) hmp (by decide)

/-- A destination the engine itself just wrote (media branch) or whose
name lacks a checkable fingerprint always validates as `true` against the
bytes that were copied there. -/
theorem fresh_copy_validates (env : Env) (path base pre2 : GoStr) (content : Bytes)
    (dst : GoStr) (tSrc : timeSrc)
    (hgood : GoodHash env.hash) (hsane : SaneStats env)
    (hpath : path = pre2 ++ '/' :: basenameGo path)
    (hpick : '/' ∉ pickedName path)
    (hg : getSortedDestination env path content base = some (dst, tSrc))
    (hm : isMedia dst = true) :
    validateFile env.hash dst content = some true := by
  obtain ⟨t, hcase⟩ := getSorted_inv env path content base dst tSrc hg
  rcases hcase with ⟨hmp, hcne, hres, hdst⟩ | ⟨hmp, hts, ⟨ts0, hres⟩, hdst⟩
  · subst hdst
    rw [append_shuffle]
    exact validateFile_canonical env.hash content t (pickedName path)
      (base ++ natDec t.year ++ '/' :: pad2 t.month)
      (hgood content).1 (hgood content).2.1 (hgood content).2.2
      (getPhotoCreationTime_bound env path content _ t tSrc hsane hres)
      hpick hcne
  · exfalso
    have hbn := isMedia_basename_false path pre2 hpath hmp
    have hdf : isMedia dst = false := by
      rw [hdst, append_shuffle2]
      exact isMedia_prepend_false _ _ hbn
    rw [hdf] at hm
    exact Bool.noConfusion hm

/-- C2: running the Placement Engine a second time after a completed first
run on the same source and destination base copies nothing, reports the
destination as existing and not invalid, and leaves the whole tree
unchanged.  The side conditions say the source path is a file under some
directory whose (possibly recovered) name contains no slash, that the
fingerprinter returns 16-character hyphen-free slash-free strings (as
`getPhotoHash` does, see `getPhotoHash_good`), and that the stat times
carry sane zone offsets. -/
theorem second_run_noop (env : Env) (path base pre2 : GoStr) (fs0 fs1 fs2 : FS)
    (r1 r2 : Report)
    (hgood : GoodHash env.hash) (hsane : SaneStats env)
    (hpath : path = pre2 ++ '/' :: basenameGo path)
    (hpick : '/' ∉ pickedName path)
    (hne : path ≠ r1.dstPath)
    (h1 : sortFileIntoDestination env path base false fs0 = some (fs1, r1))
    (h2 : sortFileIntoDestination env path base false fs1 = some (fs2, r2)) :
    fs2 = fs1 ∧ r2.doesDestExist = true ∧ r2.isDestInvalid = false ∧
    r2.bytesCopied = 0 := by
  obtain ⟨content, hc, hg, hdirs, hcase⟩ := engine_cases env path base false fs0 fs1 r1 h1
  have main : ∀ d1, fsLookup fs1.files r1.dstPath = some d1 →
      (isMedia r1.dstPath = true → validateFile env.hash r1.dstPath d1 = some true) →
      fsLookup fs1.files path = some content →
      fs2 = fs1 ∧ r2.doesDestExist = true ∧ r2.isDestInvalid = false ∧
      r2.bytesCopied = 0 := by
    intro d1 hd1 hv1 hl1
    have hskip : isMedia r1.dstPath = false ∨
        validateFile env.hash r1.dstPath d1 = some true := by
      by_cases hmm : isMedia r1.dstPath = true
      · exact Or.inr (hv1 hmm)
      · exact Or.inl (by simpa using hmm)
    rw [engine_skip env path base false fs1 content d1 r1.dstPath r1.tSrc hl1 hg hd1 hskip]
      at h2
    injection h2 with h21
    injection h21 with hfs hr
    subst hfs hr
    refine ⟨?_, rfl, rfl, rfl⟩
    show FS.mk fs1.files (dirInsert fs1.dirs (dirnameGo r1.dstPath)) = fs1
    rw [hdirs, dirInsert_idem, ← hdirs]
  rcases hcase with ⟨hd, hex, hinv, ⟨hdry, hfiles, hbytes⟩ | ⟨hwet, hfiles, hbytes⟩⟩ |
      ⟨dc, hd, hskip1, hex, hinv, hfiles, hbytes⟩ |
      ⟨dc, hd, hm, hv, hex, hinv, ⟨hdry, hfiles, hbytes⟩ | ⟨hwet, hne2, hfiles, hbytes⟩⟩
  · exact absurd hdry (by simp)
  · -- run 1 wrote a fresh copy
    apply main content
    · rw [hfiles]
      exact fsLookup_insert_self _ _ _
    · intro hmm
      exact fresh_copy_validates env path base pre2 content r1.dstPath r1.tSrc
        hgood hsane hpath hpick hg hmm
    · rw [hfiles, fsLookup_insert_ne _ _ _ _ hne]
      exact hc
  · -- run 1 skipped a valid or unverifiable destination
    apply main dc
    · rw [hfiles]
      exact hd
    · intro hmm
      rcases hskip1 with hf | ht
      · rw [hmm] at hf
        exact Bool.noConfusion hf
      · exact ht
    · rw [hfiles]
      exact hc
  · exact absurd hdry (by simp)
  · -- run 1 repaired an invalid destination
    apply main content
    · rw [hfiles]
      exact fsLookup_insert_self _ _ _
    · intro hmm
      exact fresh_copy_validates env path base pre2 content r1.dstPath r1.tSrc
        hgood hsane hpath hpick hg hmm
    · rw [hfiles, fsLookup_insert_ne _ _ _ _ hne, fsLookup_remove_ne _ _ _ hne]
      exact hc

/-- Witness for `second_run_noop`: the concrete `envCtime` scenario, whose
first run copies `s/IMG.JPG` and whose second run changes nothing. -/
theorem second_run_noop_witness :
    fsAfterOne = fsAfterOne ∧ repSecond.doesDestExist = true ∧
    repSecond.isDestInvalid = false ∧ repSecond.bytesCopied = 0 :=
  second_run_noop envCtime srcJpg "d/".data "s".data fsOne fsAfterOne fsAfterOne
    repFirst repSecond
    (fun _ => ⟨(by decide : ("0123456789abcdef".data).length = 16),
      (by decide : '-' ∉ "0123456789abcdef".data),
      (by decide : '/' ∉ "0123456789abcdef".data)⟩)
    (fun _ => ⟨(by decide : ((⟨2021, 1, 2, 3, 4, 5, 0, 0⟩ : GoTime)).offMin.natAbs ≤ 1440),
      (by decide : ((⟨2022, 1, 1, 0, 0, 0, 0, 0⟩ : GoTime)).offMin.natAbs ≤ 1440)⟩)
    (by decide) (by decide) (by decide) (by decide) (by decide)

end Fotografiska
